import Mathlib

/-!
# WAV (RIFF/PCM) container codec of `wav/wav.go`

A shallow embedding of the Go package `wav`: the header structures, the
`encoding/binary` field codecs in both byte orders, the two header decoders,
the chunk scan of `ReadWavHeaderWithExtra`, and the converters `PcmToWav` and
`WavToPcm`.

Modelling conventions.
* A byte buffer (`[]byte`) is a `List Byte`, a byte is a `Fin 256`.
* Go's `uint16` / `uint32` values are natural numbers; every operation that
  can wrap in Go carries an explicit `% 2^16` / `% 2^32`.
* Go's `int` (the fields `PcmOffset` and `SampleNums`) is `Int`; the platform
  is taken to be 64-bit, where the sums formed here cannot overflow.
* A call ends in one of four ways, see `Outcome`: a value, a returned `error`,
  a runtime panic, or (for the model of a loop only) exhausted fuel.
-/

namespace Wav

/-- One octet of a byte buffer. -/
abbrev Byte := Fin 256

/-- The byte orders `binary.BigEndian` and `binary.LittleEndian`. -/
inductive ByteOrder where
  | BigEndian
  | LittleEndian
  deriving DecidableEq, Repr

/-- The `error` values the package can return: the two `io` errors produced by
`binary.Read` (through `io.ReadFull`) and the package's own
`errors.New("may not wav format")`. -/
inductive GoError where
  | EOF
  | ErrUnexpectedEOF
  | mayNotWavFormat
  deriving DecidableEq, Repr

/-- The runtime panics reachable from the package's code. -/
inductive GoPanic where
  | integerDivideByZero
  | sliceBoundsOutOfRange
  | makesliceCapOutOfRange
  deriving DecidableEq, Repr

/-- How a call ends: `ok v` is a normal return with `err == nil`, `error e` a
normal return with `err != nil` (and nil results), `panic p` a Go runtime
panic, and `diverge` says that the fuel given to the model of a loop ran out
before the loop ended. -/
inductive Outcome (α : Type) where
  | ok : α → Outcome α
  | error : GoError → Outcome α
  | panic : GoPanic → Outcome α
  | diverge : Outcome α
  deriving DecidableEq, Repr

/-- A four byte tag, Go's `[4]byte`. -/
abbrev Tag := Byte × Byte × Byte × Byte

/-- The tag `"RIFF"`. -/
def tagRIFF : Tag := (82, 73, 70, 70)
/-- The tag `"WAVE"`. -/
def tagWAVE : Tag := (87, 65, 86, 69)
/-- The tag `"fmt "`. -/
def tagFmt : Tag := (102, 109, 116, 32)
/-- The tag `"data"`. -/
def tagData : Tag := (100, 97, 116, 97)

/-- The bytes of a tag, in order. -/
def Tag.bytes (t : Tag) : List Byte := [t.1, t.2.1, t.2.2.1, t.2.2.2]

/-- Go's `type Head struct`. -/
structure Head where
  ChunkID : Tag
  ChunkSize : Nat
  Format : Tag
  deriving DecidableEq, Repr

/-- Go's `type Fmt struct`. -/
structure Fmt where
  Subchunk1ID : Tag
  Subchunk1Size : Nat
  AudioFormat : Nat
  NumChannels : Nat
  SampleRate : Nat
  ByteRate : Nat
  BlockAlign : Nat
  BitsPerSample : Nat
  deriving DecidableEq, Repr

/-- Go's `type Data struct`. -/
structure Data where
  Subchunk2ID : Tag
  Subchunk2Size : Nat
  deriving DecidableEq, Repr

/-- Go's `type WavHead struct { Head; Fmt; Data }`. -/
structure WavHead extends Head, Fmt, Data where
  deriving DecidableEq, Repr

/-- Go's `type WavHeaderWithExtra struct { WavHead; PcmOffset int; SampleNums int }`. -/
structure WavHeaderWithExtra extends WavHead where
  PcmOffset : Int
  SampleNums : Int
  deriving DecidableEq, Repr

/-- Every numeric field of the header lies in the range of its Go type. -/
def WavHead.InRange (h : WavHead) : Prop :=
  h.ChunkSize < 2 ^ 32 ∧ h.Subchunk1Size < 2 ^ 32 ∧ h.AudioFormat < 2 ^ 16 ∧
  h.NumChannels < 2 ^ 16 ∧ h.SampleRate < 2 ^ 32 ∧ h.ByteRate < 2 ^ 32 ∧
  h.BlockAlign < 2 ^ 16 ∧ h.BitsPerSample < 2 ^ 16 ∧ h.Subchunk2Size < 2 ^ 32

instance (h : WavHead) : Decidable h.InRange := by
  unfold WavHead.InRange
  infer_instance

/-! ## `encoding/binary` field codecs -/

/-- The value of the byte `b[i]`; `0` when `i` is out of range (the decoders
below are only run on ranges that `io.ReadFull` has filled). -/
def byteAt (b : List Byte) (i : Nat) : Nat := (b.getD i 0).val

/-- The tag stored in `b[off .. off+4]`. -/
def tagAt (b : List Byte) (off : Nat) : Tag :=
  (b.getD off 0, b.getD (off + 1) 0, b.getD (off + 2) 0, b.getD (off + 3) 0)

/-- `order.Uint16(b[off:])`. -/
def ByteOrder.Uint16 (o : ByteOrder) (b : List Byte) (off : Nat) : Nat :=
  match o with
  | .LittleEndian => byteAt b off + byteAt b (off + 1) * 2 ^ 8
  | .BigEndian => byteAt b (off + 1) + byteAt b off * 2 ^ 8

/-- `order.Uint32(b[off:])`. -/
def ByteOrder.Uint32 (o : ByteOrder) (b : List Byte) (off : Nat) : Nat :=
  match o with
  | .LittleEndian =>
      byteAt b off + byteAt b (off + 1) * 2 ^ 8 + byteAt b (off + 2) * 2 ^ 16 +
        byteAt b (off + 3) * 2 ^ 24
  | .BigEndian =>
      byteAt b (off + 3) + byteAt b (off + 2) * 2 ^ 8 + byteAt b (off + 1) * 2 ^ 16 +
        byteAt b off * 2 ^ 24

/-- The conversion `byte(v)`: the low eight bits of `v`. -/
def toByte (v : Nat) : Byte := ⟨v % 256, Nat.mod_lt v (by decide)⟩

/-- The two bytes `order.PutUint16` writes for `v`. -/
def ByteOrder.PutUint16 (o : ByteOrder) (v : Nat) : List Byte :=
  match o with
  | .LittleEndian => [toByte v, toByte (v / 2 ^ 8)]
  | .BigEndian => [toByte (v / 2 ^ 8), toByte v]

/-- The four bytes `order.PutUint32` writes for `v`. -/
def ByteOrder.PutUint32 (o : ByteOrder) (v : Nat) : List Byte :=
  match o with
  | .LittleEndian => [toByte v, toByte (v / 2 ^ 8), toByte (v / 2 ^ 16), toByte (v / 2 ^ 24)]
  | .BigEndian => [toByte (v / 2 ^ 24), toByte (v / 2 ^ 16), toByte (v / 2 ^ 8), toByte v]

/-- The decoding `binary.Read` performs for a `Head` laid out at `off`. -/
def decodeHead (o : ByteOrder) (b : List Byte) (off : Nat) : Head :=
  { ChunkID := tagAt b off
    ChunkSize := o.Uint32 b (off + 4)
    Format := tagAt b (off + 8) }

/-- The decoding `binary.Read` performs for a `Fmt` laid out at `off`. -/
def decodeFmt (o : ByteOrder) (b : List Byte) (off : Nat) : Fmt :=
  { Subchunk1ID := tagAt b off
    Subchunk1Size := o.Uint32 b (off + 4)
    AudioFormat := o.Uint16 b (off + 8)
    NumChannels := o.Uint16 b (off + 10)
    SampleRate := o.Uint32 b (off + 12)
    ByteRate := o.Uint32 b (off + 16)
    BlockAlign := o.Uint16 b (off + 20)
    BitsPerSample := o.Uint16 b (off + 22) }

/-- The decoding `binary.Read` performs for a `Data` laid out at `off`. -/
def decodeData (o : ByteOrder) (b : List Byte) (off : Nat) : Data :=
  { Subchunk2ID := tagAt b off
    Subchunk2Size := o.Uint32 b (off + 4) }

/-- The decoding `binary.Read` performs for a `WavHead` laid out at `off`:
the three embedded structures one after the other, 12 + 24 + 8 bytes. -/
def decodeWavHead (o : ByteOrder) (b : List Byte) (off : Nat) : WavHead :=
  { toHead := decodeHead o b off
    toFmt := decodeFmt o b (off + 12)
    toData := decodeData o b (off + 36) }

/-- The bytes `binary.Write` produces for a `WavHead`: every field in
declaration order at its own width, no padding. -/
def encodeWavHead (o : ByteOrder) (h : WavHead) : List Byte :=
  h.ChunkID.bytes ++ o.PutUint32 h.ChunkSize ++ h.Format.bytes ++
  h.Subchunk1ID.bytes ++ o.PutUint32 h.Subchunk1Size ++ o.PutUint16 h.AudioFormat ++
  o.PutUint16 h.NumChannels ++ o.PutUint32 h.SampleRate ++ o.PutUint32 h.ByteRate ++
  o.PutUint16 h.BlockAlign ++ o.PutUint16 h.BitsPerSample ++
  h.Subchunk2ID.bytes ++ o.PutUint32 h.Subchunk2Size

/-- `binary.Size(head)` for a `WavHead`. -/
def sizeWavHead : Nat := 44

/-- `binary.Size(data)` for a `Data`. -/
def sizeData : Nat := 8

/-- The error, if any, of `io.ReadFull` asking a `bytes.Reader` over `wav`
standing at position `pos` for `n > 0` bytes: `io.EOF` when nothing is left,
`io.ErrUnexpectedEOF` when fewer than `n` bytes are left, none otherwise. -/
def readFullErr (wav : List Byte) (pos n : Nat) : Option GoError :=
  if wav.length ≤ pos then some .EOF
  else if wav.length < pos + n then some .ErrUnexpectedEOF
  else none

/-! ## The package's functions -/

/-- Go's `NewWavHeader`; the arithmetic is that of `uint32` and `uint16`. -/
def NewWavHeader (numChannels sampleRate bitsPerSample wavLenBytes : Nat) : WavHead :=
  { ChunkID := tagRIFF
    ChunkSize := (36 + wavLenBytes) % 2 ^ 32
    Format := tagWAVE
    Subchunk1ID := tagFmt
    Subchunk1Size := 16
    AudioFormat := 1
    NumChannels := numChannels
    SampleRate := sampleRate
    ByteRate := (sampleRate * numChannels % 2 ^ 32) * bitsPerSample % 2 ^ 32 / 8
    BlockAlign := numChannels * bitsPerSample % 2 ^ 16 / 8
    BitsPerSample := bitsPerSample
    Subchunk2ID := tagData
    Subchunk2Size := wavLenBytes }

/-- Go's `(*WavHead).Marshal`: `binary.Write` in little-endian order into a
`bytes.Buffer`, which cannot fail for this fixed-size structure. -/
def WavHead.Marshal (wh : WavHead) : Outcome (List Byte) :=
  .ok (encodeWavHead .LittleEndian wh)

/-- Go's `ReadWavHeader`. -/
def ReadWavHeader (wav : List Byte) : Outcome WavHead :=
  match readFullErr wav 0 sizeWavHead with
  | some e => .error e
  | none =>
    let head := decodeWavHead .BigEndian wav 0
    if head.NumChannels > 200 then
      match readFullErr wav 0 sizeWavHead with
      | some e => .error e
      | none => .ok (decodeWavHead .LittleEndian wav 0)
    else .ok head

/-- The loop `for string(data.Subchunk2ID[:]) != "data" { ... }` of
`ReadWavHeaderWithExtra`. The state is the reader position `pos`, the running
`extraHeader.PcmOffset` and the descriptor `data` last read; the result is the
value of `PcmOffset` when the loop exits. `fuel` bounds the number of
iterations. -/
def scanLoop (wav : List Byte) (byteOrder : ByteOrder) :
    Nat → Nat → Int → Data → Outcome Int
  | 0, _, _, _ => .diverge
  | fuel + 1, pos, pcmOffset, data =>
    if data.Subchunk2ID = tagData then .ok pcmOffset
    else
      let pcmOffset := pcmOffset + ((data.Subchunk2Size : Int) + 8)
      let pos := pos + data.Subchunk2Size
      match readFullErr wav pos sizeData with
      | some e => .error e
      | none => scanLoop wav byteOrder fuel (pos + sizeData) pcmOffset (decodeData byteOrder wav pos)

/-- The part of `ReadWavHeaderWithExtra` after the byte order is settled: the
plausibility test, the chunk scan and the sample count. -/
def finishHeader (fuel : Nat) (wav : List Byte) (byteOrder : ByteOrder) (head : WavHead) :
    Outcome WavHeaderWithExtra :=
  if head.NumChannels > 200 then .error .mayNotWavFormat
  else
    match scanLoop wav byteOrder fuel sizeWavHead (sizeWavHead : Int) head.toData with
    | .ok pcmOffset =>
      let d : Int := (head.BitsPerSample : Int).tdiv 8
      if d = 0 then .panic .integerDivideByZero
      else .ok { toWavHead := head
                 PcmOffset := pcmOffset
                 SampleNums := ((wav.length : Int) - pcmOffset).tdiv d }
    | .error e => .error e
    | .panic p => .panic p
    | .diverge => .diverge

/-- Go's `ReadWavHeaderWithExtra`, its loop run with at most `fuel` iterations. -/
def ReadWavHeaderWithExtraFuel (fuel : Nat) (wav : List Byte) : Outcome WavHeaderWithExtra :=
  match readFullErr wav 0 sizeWavHead with
  | some e => .error e
  | none =>
    let head := decodeWavHead .BigEndian wav 0
    if head.NumChannels > 200 then
      match readFullErr wav 0 sizeWavHead with
      | some e => .error e
      | none => finishHeader fuel wav .LittleEndian (decodeWavHead .LittleEndian wav 0)
    else finishHeader fuel wav .BigEndian head

/-- Go's `ReadWavHeaderWithExtra`. The fuel `len(wav)` is never used up,
since every iteration of the loop consumes at least eight bytes. -/
def ReadWavHeaderWithExtra (wav : List Byte) : Outcome WavHeaderWithExtra :=
  ReadWavHeaderWithExtraFuel wav.length wav

/-- Go's `PcmToWav`. -/
def PcmToWav (numChannels sampleRate bitsPerSample : Nat) (pcm : List Byte) :
    Outcome (List Byte) :=
  let head := NewWavHeader numChannels sampleRate bitsPerSample (pcm.length % 2 ^ 32)
  match head.Marshal with
  | .ok hb => .ok (hb ++ pcm)
  | .error e => .error e
  | .panic p => .panic p
  | .diverge => .diverge

/-- Go's `WavToPcm`; the slice expression `wav[head.PcmOffset:]` panics when
the offset is negative or beyond `len(wav)`. -/
def WavToPcm (wav : List Byte) : Outcome (List Byte × WavHeaderWithExtra) :=
  match ReadWavHeaderWithExtra wav with
  | .ok head =>
    if 0 ≤ head.PcmOffset ∧ head.PcmOffset ≤ (wav.length : Int) then
      .ok (wav.drop head.PcmOffset.toNat, head)
    else .panic .sliceBoundsOutOfRange
  | .error e => .error e
  | .panic p => .panic p
  | .diverge => .diverge

/-! ## Notions used to state the properties -/

/-- The byte order both decoders settle on for a buffer that holds a full
header: big-endian unless the big-endian channel count exceeds 200. -/
def resolvedOrder (wav : List Byte) : ByteOrder :=
  if ByteOrder.BigEndian.Uint16 wav 22 > 200 then .LittleEndian else .BigEndian

/-- The first 36 bytes (RIFF block and format block) of a little-endian header: one channel,
16000 Hz, 16 bits per sample. -/
def fixtureHdr : List Byte :=
  [82, 73, 70, 70, 68, 0, 0, 0, 87, 65, 86, 69, 102, 109, 116, 32, 16, 0, 0, 0, 1, 0, 1, 0,
   128, 62, 0, 0, 0, 125, 0, 0, 2, 0, 16, 0]

/-- The tag `"LIST"`, a chunk that is not the payload. -/
def tagLIST : Tag := (76, 73, 83, 84)

/-- Twenty payload bytes of a chunk to be skipped. -/
def fixtureSkip : List Byte :=
  [9, 9, 9, 9, 9, 9, 9, 9, 9, 9, 9, 9, 9, 9, 9, 9, 9, 9, 9, 9]

/-- The chunk descriptors the scan of `ReadWavHeaderWithExtra` passes, in order: the `k`-th
entry is the reader position after the descriptor was read (the index of the first byte of
the chunk's payload) together with the descriptor. The first descriptor is the one at byte
offset 36; a further one exists when the previous tag is not `"data"` and a full 8-byte
descriptor follows the previous chunk's declared payload. -/
def nthChunk (wav : List Byte) (o : ByteOrder) : Nat → Option (Nat × Data)
  | 0 => some (44, decodeData o wav 36)
  | k + 1 =>
    match nthChunk wav o k with
    | some (pos, d) =>
      if d.Subchunk2ID ≠ tagData ∧ pos + d.Subchunk2Size + 8 ≤ wav.length then
        some (pos + d.Subchunk2Size + 8, decodeData o wav (pos + d.Subchunk2Size))
      else none
    | none => none

/-- A 52-byte buffer whose first chunk (tag `"LIST"`, at offset 36) declares a payload of
1000 bytes, far past the end of the buffer. -/
def overrunWav : List Byte :=
  fixtureHdr ++ (tagLIST.bytes ++ ([232, 3, 0, 0] ++ [1, 2, 3, 4, 5, 6, 7, 8]))

/-- The 44-byte little-endian canonical header of an empty payload (one channel, 16000 Hz)
whose `BitsPerSample` field is 0: the bytes `PcmToWav(1, 16000, 0, nil)` returns. -/
def zeroWidthWav : List Byte :=
  [82, 73, 70, 70, 36, 0, 0, 0, 87, 65, 86, 69, 102, 109, 116, 32, 16, 0, 0, 0, 1, 0, 1, 0,
   128, 62, 0, 0, 0, 0, 0, 0, 0, 0, 0, 0, 100, 97, 116, 97, 0, 0, 0, 0]

/-- A 50-byte buffer with an extended format block: `Subchunk1Size = 18` (two extra format
bytes at offsets 36 and 37), so that the `"data"` descriptor sits at offset 38 = 20 + 18 and
its four payload bytes at offset 46 = 28 + 18. -/
def extendedFmtWav : List Byte :=
  [82, 73, 70, 70, 42, 0, 0, 0, 87, 65, 86, 69, 102, 109, 116, 32, 18, 0, 0, 0, 1, 0, 1, 0,
   128, 62, 0, 0, 0, 125, 0, 0, 2, 0, 16, 0, 0, 0, 100, 97, 116, 97, 4, 0, 0, 0, 1, 2, 3, 4]

/-- A 48-byte buffer that declares `Subchunk1Size = 18` but has its `"data"` descriptor at
offset 36, followed by four payload bytes. -/
def declared18Wav : List Byte :=
  [82, 73, 70, 70, 40, 0, 0, 0, 87, 65, 86, 69, 102, 109, 116, 32, 18, 0, 0, 0, 1, 0, 1, 0,
   128, 62, 0, 0, 0, 125, 0, 0, 2, 0, 16, 0, 100, 97, 116, 97, 4, 0, 0, 0, 1, 2, 3, 4]

/-- A 44-byte buffer whose channel-count bytes (offsets 22 and 23) are `255, 255`: the count
is 65535 under either byte order. -/
def implausibleWav : List Byte :=
  [82, 73, 70, 70, 36, 0, 0, 0, 87, 65, 86, 69, 102, 109, 116, 32, 16, 0, 0, 0, 1, 0, 255, 255,
   128, 62, 0, 0, 0, 125, 0, 0, 2, 0, 16, 0, 100, 97, 116, 97, 0, 0, 0, 0]

/-- A header value with two channels (44100 Hz, 16 bits, 8 payload bytes declared). -/
def stereoHead : WavHead := NewWavHeader 2 44100 16 8

/-- The literal 44-byte canonical header: `"RIFF"`, `"WAVE"`, `"fmt "`, `AudioFormat = 1`,
`NumChannels = 1`, `SampleRate = 16000`, `BitsPerSample = 16`, `"data"`, little-endian, with
an empty payload. -/
def canonicalFixture : List Byte :=
  [82, 73, 70, 70, 36, 0, 0, 0, 87, 65, 86, 69, 102, 109, 116, 32, 16, 0, 0, 0, 1, 0, 1, 0,
   128, 62, 0, 0, 0, 125, 0, 0, 2, 0, 16, 0, 100, 97, 116, 97, 0, 0, 0, 0]

/-- The buffer of the chunk-skipping example: `fixtureHdr`, a 20-byte `"LIST"` chunk, and a
`"data"` chunk of four bytes. -/
def skipWav : List Byte :=
  fixtureHdr ++ (tagLIST.bytes ++ ([20, 0, 0, 0] ++ (fixtureSkip ++
    (tagData.bytes ++ ([4, 0, 0, 0] ++ [1, 2, 3, 4])))))

/-- The 44 bytes `PcmToWav(256, 8000, 256, nil)` returns: 256 channels, 256 bits per sample,
little-endian, empty payload. -/
def misreadWav : List Byte :=
  [82, 73, 70, 70, 36, 0, 0, 0, 87, 65, 86, 69, 102, 109, 116, 32, 16, 0, 0, 0, 1, 0, 0, 1,
   64, 31, 0, 0, 0, 0, 232, 3, 0, 0, 0, 1, 100, 97, 116, 97, 0, 0, 0, 0]

/-- The value of a 16-bit field whose two bytes are read in the opposite order. -/
def reverse16 (v : Nat) : Nat := v / 2 ^ 8 % 256 + v % 256 * 2 ^ 8

/-- The value of a 32-bit field whose four bytes are read in the opposite order. -/
def reverse32 (v : Nat) : Nat :=
  v / 2 ^ 24 % 256 + v / 2 ^ 16 % 256 * 2 ^ 8 + v / 2 ^ 8 % 256 * 2 ^ 16 + v % 256 * 2 ^ 24

/-- The header with every numeric field byte-reversed and every tag unchanged. -/
def reverseHead (h : WavHead) : WavHead :=
  { ChunkID := h.ChunkID
    ChunkSize := reverse32 h.ChunkSize
    Format := h.Format
    Subchunk1ID := h.Subchunk1ID
    Subchunk1Size := reverse32 h.Subchunk1Size
    AudioFormat := reverse16 h.AudioFormat
    NumChannels := reverse16 h.NumChannels
    SampleRate := reverse32 h.SampleRate
    ByteRate := reverse32 h.ByteRate
    BlockAlign := reverse16 h.BlockAlign
    BitsPerSample := reverse16 h.BitsPerSample
    Subchunk2ID := h.Subchunk2ID
    Subchunk2Size := reverse32 h.Subchunk2Size }

/-- A 48-byte buffer with a big-endian header (one channel, 16000 Hz, 16 bits per sample), a
`"data"` descriptor at offset 36 and four payload bytes. -/
def bigEndianFixture : List Byte :=
  [82, 73, 70, 70, 0, 0, 0, 40, 87, 65, 86, 69, 102, 109, 116, 32, 0, 0, 0, 16, 0, 1, 0, 1,
   0, 0, 62, 128, 0, 0, 125, 0, 0, 2, 0, 16, 100, 97, 116, 97, 0, 0, 0, 4, 1, 2, 3, 4]

/-- The 44 bytes `PcmToWav(0, 8000, 0, nil)` returns: zero channels, zero bits per sample,
little-endian, empty payload. -/
def zeroChannelWav : List Byte :=
  [82, 73, 70, 70, 36, 0, 0, 0, 87, 65, 86, 69, 102, 109, 116, 32, 16, 0, 0, 0, 1, 0, 0, 0,
   64, 31, 0, 0, 0, 0, 0, 0, 0, 0, 0, 0, 100, 97, 116, 97, 0, 0, 0, 0]

/-! ## The line parser of `csv/wav_to_slice.go` -/

/-- The functions of Go's standard library that `ParseRawsToMapSlice` calls, taken as
parameters: `strings.TrimSpace`, `strings.Split`, the removal of the first U+FEFF of a string by `strings.Replace` and
`fmt.Sprintf("%v", ln)`. -/
structure Csv.StringOps where
  TrimSpace : String → String
  Split : String → String → List String
  ReplaceBOM : String → String
  Sprint : Nat → String

/-- A Go `map[string]string`, as the list of its key/value pairs. -/
abbrev Csv.Row := List (String × String)

/-- The assignment `row[k] = v`. -/
def Csv.Row.set (row : Csv.Row) (k v : String) : Csv.Row :=
  (k, v) :: row.filter (fun p => p.1 ≠ k)

/-- The loop `for i, v := range dataLine` that fills one row; `i` is the index of the head of
the list. -/
def Csv.fillRow (ops : Csv.StringOps) (heads : List String) (ln : Nat) :
    List String → Nat → Csv.Row → Csv.Row
  | [], _, row => row
  | v :: rest, i, row =>
    if i ≥ heads.length - 1 then Csv.fillRow ops heads ln rest (i + 1) row
    else
      Csv.fillRow ops heads ln rest (i + 1)
        ((row.set "INDEX" (ops.Sprint ln)).set (heads.getD (i + 1) "") v)

/-- The loop `for ln, line := range raws`; `ln` is the index of the head of the list, `heads`
and `dataParsed` are the variables of the Go function. -/
def Csv.parseLoop (ops : Csv.StringOps) (split : String) :
    List String → Nat → List String → List Csv.Row → List Csv.Row
  | [], _, _, dataParsed => dataParsed
  | line :: rest, ln, heads, dataParsed =>
    let line := ops.TrimSpace line
    if line = "" then Csv.parseLoop ops split rest (ln + 1) heads dataParsed
    else
      let dataLine := ops.Split line split
      if ln = 0 then
        Csv.parseLoop ops split rest (ln + 1)
          (heads ++ dataLine.map (fun h => ops.ReplaceBOM (ops.TrimSpace h))) dataParsed
      else
        Csv.parseLoop ops split rest (ln + 1) heads
          (dataParsed ++ [Csv.fillRow ops heads ln dataLine 0 []])

/-- Go's `ParseRawsToMapSlice`. The allocation
`make([]map[string]string, 0, len(raws)-1)` panics at run time when the capacity
`len(raws)-1` is negative. -/
def Csv.ParseRawsToMapSlice (ops : Csv.StringOps) (raws : List String) (split : String) :
    Outcome (List Csv.Row) :=
  if (raws.length : Int) - 1 < 0 then .panic .makesliceCapOutOfRange
  else .ok (Csv.parseLoop ops split raws 0 ["INDEX"] [])

/-- String functions standing in for the standard library in examples: no trimming, each
line is one field. -/
def Csv.plainOps : Csv.StringOps :=
  { TrimSpace := fun s => s
    Split := fun s _ => [s]
    ReplaceBOM := fun s => s
    Sprint := fun n => toString n }

/-! ## Auxiliary facts about the codecs and the scan -/

theorem toByte_val (v : Nat) : (toByte v).val = v % 256 := rfl

theorem decode_encode (o : ByteOrder) (h : WavHead) (hr : h.InRange) (rest : List Byte) :
    decodeWavHead o (encodeWavHead o h ++ rest) 0 = h := by
  obtain ⟨h1, h2, h3, h4, h5, h6, h7, h8, h9⟩ := hr
  rcases h with ⟨⟨id, cs, fm⟩, ⟨s1, s1s, af, nc, sr, br, ba, bps⟩, ⟨s2, s2s⟩⟩
  simp only [] at h1 h2 h3 h4 h5 h6 h7 h8 h9
  cases o <;>
  simp [decodeWavHead, decodeHead, decodeFmt, decodeData, encodeWavHead, Tag.bytes, tagAt,
    ByteOrder.Uint16, ByteOrder.Uint32, ByteOrder.PutUint16, ByteOrder.PutUint32, byteAt,
    toByte_val] <;> omega

theorem encodeWavHead_length (o : ByteOrder) (h : WavHead) : (encodeWavHead o h).length = 44 := by
  cases o <;> simp [encodeWavHead, Tag.bytes, ByteOrder.PutUint16, ByteOrder.PutUint32]

theorem readFullErr_none {wav : List Byte} {pos n : Nat} (hn : 0 < n)
    (h : pos + n ≤ wav.length) : readFullErr wav pos n = none := by
  unfold readFullErr
  rw [if_neg (by omega), if_neg (by omega)]

theorem readFullErr_some {wav : List Byte} {pos n : Nat}
    (h : wav.length < pos + n) :
    readFullErr wav pos n = some (if wav.length ≤ pos then .EOF else .ErrUnexpectedEOF) := by
  unfold readFullErr
  by_cases h1 : wav.length ≤ pos
  · simp [h1]
  · simp [h1, h]

theorem scanLoop_data (wav : List Byte) (o : ByteOrder) (fuel pos : Nat) (off : Int) (d : Data)
    (hd : d.Subchunk2ID = tagData) : scanLoop wav o (fuel + 1) pos off d = .ok off := by
  simp [scanLoop, hd]

theorem scanLoop_skip (wav : List Byte) (o : ByteOrder) (fuel pos : Nat) (off : Int) (d : Data)
    (hd : d.Subchunk2ID ≠ tagData) (hle : pos + d.Subchunk2Size + 8 ≤ wav.length) :
    scanLoop wav o (fuel + 1) pos off d =
      scanLoop wav o fuel (pos + d.Subchunk2Size + 8) (off + ((d.Subchunk2Size : Int) + 8))
        (decodeData o wav (pos + d.Subchunk2Size)) := by
  have h : readFullErr wav (pos + d.Subchunk2Size) 8 = none := readFullErr_none (by decide) hle
  simp [scanLoop, hd, sizeData, h]

theorem scanLoop_overrun (wav : List Byte) (o : ByteOrder) (fuel pos : Nat) (off : Int) (d : Data)
    (hd : d.Subchunk2ID ≠ tagData) (hlt : wav.length < pos + d.Subchunk2Size + 8) :
    scanLoop wav o (fuel + 1) pos off d =
      .error (if wav.length ≤ pos + d.Subchunk2Size then .EOF else .ErrUnexpectedEOF) := by
  have h := readFullErr_some hlt
  simp [scanLoop, hd, sizeData, h]

theorem decodeWavHead_NumChannels (o : ByteOrder) (wav : List Byte) :
    (decodeWavHead o wav 0).NumChannels = o.Uint16 wav 22 := rfl

theorem decodeWavHead_toData (o : ByteOrder) (wav : List Byte) :
    (decodeWavHead o wav 0).toData = decodeData o wav 36 := rfl

theorem ReadWavHeaderWithExtraFuel_eq (fuel : Nat) (wav : List Byte) (h : 44 ≤ wav.length) :
    ReadWavHeaderWithExtraFuel fuel wav =
      finishHeader fuel wav (resolvedOrder wav) (decodeWavHead (resolvedOrder wav) wav 0) := by
  have hr : readFullErr wav 0 44 = none := readFullErr_none (by decide) (by omega)
  unfold ReadWavHeaderWithExtraFuel resolvedOrder
  simp only [sizeWavHead, hr, decodeWavHead_NumChannels]
  by_cases hc : ByteOrder.BigEndian.Uint16 wav 22 > 200
  · simp [hc]
  · simp [hc]

theorem ReadWavHeaderWithExtra_eq (wav : List Byte) (h : 44 ≤ wav.length) :
    ReadWavHeaderWithExtra wav =
      finishHeader wav.length wav (resolvedOrder wav) (decodeWavHead (resolvedOrder wav) wav 0) :=
  ReadWavHeaderWithExtraFuel_eq wav.length wav h

theorem ReadWavHeaderWithExtra_short (wav : List Byte) (h : wav.length < 44) :
    ReadWavHeaderWithExtra wav =
      .error (if wav.length ≤ 0 then .EOF else .ErrUnexpectedEOF) := by
  have hr := readFullErr_some (show wav.length < 0 + 44 by omega)
  unfold ReadWavHeaderWithExtra ReadWavHeaderWithExtraFuel
  simp only [sizeWavHead, hr]

theorem ReadWavHeader_eq (wav : List Byte) (h : 44 ≤ wav.length) :
    ReadWavHeader wav = .ok (decodeWavHead (resolvedOrder wav) wav 0) := by
  have hr : readFullErr wav 0 44 = none := readFullErr_none (by decide) (by omega)
  unfold ReadWavHeader resolvedOrder
  simp only [sizeWavHead, hr, decodeWavHead_NumChannels]
  by_cases hc : ByteOrder.BigEndian.Uint16 wav 22 > 200
  · simp [hc]
  · simp [hc]

theorem ReadWavHeader_short (wav : List Byte) (h : wav.length < 44) :
    ReadWavHeader wav = .error (if wav.length ≤ 0 then .EOF else .ErrUnexpectedEOF) := by
  have hr := readFullErr_some (show wav.length < 0 + 44 by omega)
  unfold ReadWavHeader
  simp only [sizeWavHead, hr]

theorem scanLoop_ok_bounds (wav : List Byte) (o : ByteOrder) :
    ∀ (fuel pos : Nat) (d : Data) (r : Int), pos ≤ wav.length →
      scanLoop wav o fuel pos (pos : Int) d = .ok r →
      (pos : Int) ≤ r ∧ r ≤ (wav.length : Int) := by
  intro fuel
  induction fuel with
  | zero => intro pos d r _ h; simp [scanLoop] at h
  | succ n ih =>
    intro pos d r hpos h
    by_cases hd : d.Subchunk2ID = tagData
    · rw [scanLoop_data wav o n pos _ d hd] at h
      cases h
      exact ⟨le_refl _, by exact_mod_cast hpos⟩
    · by_cases hle : pos + d.Subchunk2Size + 8 ≤ wav.length
      · rw [scanLoop_skip wav o n pos _ d hd hle] at h
        have hcast : ((pos : Int) + ((d.Subchunk2Size : Int) + 8)) =
            ((pos + d.Subchunk2Size + 8 : Nat) : Int) := by push_cast; ring
        rw [hcast] at h
        have := ih _ _ r hle h
        constructor
        · have h1 := this.1
          push_cast at h1
          omega
        · exact this.2
      · rw [scanLoop_overrun wav o n pos _ d hd (by omega)] at h
        cases h

theorem scanLoop_not_diverge (wav : List Byte) (o : ByteOrder) :
    ∀ (fuel pos : Nat) (off : Int) (d : Data), pos ≤ wav.length → wav.length < pos + fuel →
      scanLoop wav o fuel pos off d ≠ .diverge := by
  intro fuel
  induction fuel with
  | zero => intro pos off d h1 h2; omega
  | succ n ih =>
    intro pos off d h1 h2
    by_cases hd : d.Subchunk2ID = tagData
    · rw [scanLoop_data wav o n pos _ d hd]; simp
    · by_cases hle : pos + d.Subchunk2Size + 8 ≤ wav.length
      · rw [scanLoop_skip wav o n pos _ d hd hle]
        exact ih _ _ _ hle (by omega)
      · rw [scanLoop_overrun wav o n pos _ d hd (by omega)]; simp

theorem scanLoop_not_panic (wav : List Byte) (o : ByteOrder) :
    ∀ (fuel pos : Nat) (off : Int) (d : Data) (p : GoPanic),
      scanLoop wav o fuel pos off d ≠ .panic p := by
  intro fuel
  induction fuel with
  | zero => intro pos off d p; simp [scanLoop]
  | succ n ih =>
    intro pos off d p
    by_cases hd : d.Subchunk2ID = tagData
    · rw [scanLoop_data wav o n pos _ d hd]; simp
    · by_cases hle : pos + d.Subchunk2Size + 8 ≤ wav.length
      · rw [scanLoop_skip wav o n pos _ d hd hle]
        exact ih _ _ _ _
      · rw [scanLoop_overrun wav o n pos _ d hd (by omega)]; simp

theorem scanLoop_no_tag (wav : List Byte) (o : ByteOrder)
    (hno : ∀ i, i + 8 ≤ wav.length → tagAt wav i ≠ tagData) :
    ∀ (fuel pos : Nat) (off : Int) (d : Data) (r : Int), d.Subchunk2ID ≠ tagData →
      scanLoop wav o fuel pos off d ≠ .ok r := by
  intro fuel
  induction fuel with
  | zero => intro pos off d r _; simp [scanLoop]
  | succ n ih =>
    intro pos off d r hd
    by_cases hle : pos + d.Subchunk2Size + 8 ≤ wav.length
    · rw [scanLoop_skip wav o n pos _ d hd hle]
      exact ih _ _ _ r (hno _ hle)
    · rw [scanLoop_overrun wav o n pos _ d hd (by omega)]; simp

theorem tdiv_eight (n : Nat) : ((n : Int)).tdiv 8 = ((n / 8 : Nat) : Int) :=
  (Int.ofNat_tdiv n 8).symm

theorem finishHeader_ok (fuel : Nat) (wav : List Byte) (o : ByteOrder) (head : WavHead) (r : Int)
    (hnc : head.NumChannels ≤ 200) (hb : 8 ≤ head.BitsPerSample)
    (hs : scanLoop wav o fuel 44 44 head.toData = .ok r) :
    finishHeader fuel wav o head =
      .ok { toWavHead := head
            PcmOffset := r
            SampleNums := ((wav.length : Int) - r).tdiv ((head.BitsPerSample / 8 : Nat) : Int) } := by
  have hd : ((head.BitsPerSample / 8 : Nat) : Int) ≠ 0 := by
    have : 0 < head.BitsPerSample / 8 := Nat.div_pos hb (by decide)
    exact_mod_cast this.ne'
  unfold finishHeader
  simp only [sizeWavHead, Nat.cast_ofNat, hs, tdiv_eight]
  rw [if_neg (by omega), if_neg hd]

theorem finishHeader_inv (fuel : Nat) (wav : List Byte) (o : ByteOrder) (head : WavHead)
    (h : WavHeaderWithExtra) (hok : finishHeader fuel wav o head = .ok h) :
    head.NumChannels ≤ 200 ∧ h.toWavHead = head ∧
      scanLoop wav o fuel 44 44 head.toData = .ok h.PcmOffset ∧ 8 ≤ head.BitsPerSample ∧
      h.SampleNums =
        ((wav.length : Int) - h.PcmOffset).tdiv ((head.BitsPerSample / 8 : Nat) : Int) := by
  unfold finishHeader at hok
  simp only [sizeWavHead, Nat.cast_ofNat, tdiv_eight] at hok
  by_cases hnc : head.NumChannels > 200
  · simp [hnc] at hok
  · rw [if_neg hnc] at hok
    cases hs : scanLoop wav o fuel 44 44 head.toData with
    | ok r =>
      rw [hs] at hok
      simp only at hok
      by_cases hd : ((head.BitsPerSample / 8 : Nat) : Int) = 0
      · simp [hd] at hok
      · rw [if_neg hd] at hok
        cases hok
        refine ⟨by omega, rfl, rfl, ?_, rfl⟩
        by_contra hlt
        apply hd
        have : head.BitsPerSample / 8 = 0 := by omega
        simp [this]
    | error e => rw [hs] at hok; cases hok
    | panic p => rw [hs] at hok; cases hok
    | diverge => rw [hs] at hok; cases hok

theorem finishHeader_zero_width (fuel : Nat) (wav : List Byte) (o : ByteOrder) (head : WavHead)
    (r : Int) (hnc : head.NumChannels ≤ 200) (hb : head.BitsPerSample < 8)
    (hs : scanLoop wav o fuel 44 44 head.toData = .ok r) :
    finishHeader fuel wav o head = .panic .integerDivideByZero := by
  have hd : ((head.BitsPerSample / 8 : Nat) : Int) = 0 := by
    have : head.BitsPerSample / 8 = 0 := by omega
    simp [this]
  unfold finishHeader
  simp only [sizeWavHead, Nat.cast_ofNat, hs, tdiv_eight]
  rw [if_neg (by omega), if_pos hd]

theorem WavToPcm_of_ok (wav : List Byte) (h : WavHeaderWithExtra) (p : Nat)
    (hok : ReadWavHeaderWithExtra wav = .ok h) (hp : h.PcmOffset = (p : Int))
    (hle : p ≤ wav.length) : WavToPcm wav = .ok (wav.drop p, h) := by
  unfold WavToPcm
  rw [hok]
  simp only [hp]
  rw [if_pos ⟨by omega, by exact_mod_cast hle⟩]
  simp

theorem be_channels_of_le_encoding (h : WavHead) (rest : List Byte) :
    ByteOrder.BigEndian.Uint16 (encodeWavHead .LittleEndian h ++ rest) 22 =
      h.NumChannels / 256 % 256 + h.NumChannels % 256 * 256 := by
  rcases h with ⟨⟨id, cs, fm⟩, ⟨s1, s1s, af, nc, sr, br, ba, bps⟩, ⟨s2, s2s⟩⟩
  simp [encodeWavHead, Tag.bytes, ByteOrder.Uint16, ByteOrder.PutUint16, ByteOrder.PutUint32,
    byteAt, toByte_val]

theorem be_channels_of_be_encoding (h : WavHead) (rest : List Byte) :
    ByteOrder.BigEndian.Uint16 (encodeWavHead .BigEndian h ++ rest) 22 =
      h.NumChannels % 256 + h.NumChannels / 256 % 256 * 256 := by
  rcases h with ⟨⟨id, cs, fm⟩, ⟨s1, s1s, af, nc, sr, br, ba, bps⟩, ⟨s2, s2s⟩⟩
  simp [encodeWavHead, Tag.bytes, ByteOrder.Uint16, ByteOrder.PutUint16, ByteOrder.PutUint32,
    byteAt, toByte_val]

theorem resolvedOrder_le_encoding (h : WavHead) (rest : List Byte)
    (h1 : 1 ≤ h.NumChannels) (h2 : h.NumChannels ≤ 200) :
    resolvedOrder (encodeWavHead .LittleEndian h ++ rest) = .LittleEndian := by
  unfold resolvedOrder
  rw [be_channels_of_le_encoding, if_pos (by omega)]

theorem resolvedOrder_be_encoding (h : WavHead) (rest : List Byte)
    (h2 : h.NumChannels ≤ 200) :
    resolvedOrder (encodeWavHead .BigEndian h ++ rest) = .BigEndian := by
  unfold resolvedOrder
  rw [be_channels_of_be_encoding, if_neg (by omega)]

/-- Decoding a little-endian canonical header followed by any payload. -/
theorem ReadWavHeaderWithExtra_le_canonical (h : WavHead) (rest : List Byte)
    (hr : h.InRange) (h1 : 1 ≤ h.NumChannels) (h2 : h.NumChannels ≤ 200)
    (hb : 8 ≤ h.BitsPerSample) (ht : h.Subchunk2ID = tagData) :
    ReadWavHeaderWithExtra (encodeWavHead .LittleEndian h ++ rest) =
      .ok { toWavHead := h
            PcmOffset := 44
            SampleNums := ((rest.length / (h.BitsPerSample / 8) : Nat) : Int) } := by
  have hlen : (encodeWavHead .LittleEndian h ++ rest).length = 43 + rest.length + 1 := by
    rw [List.length_append, encodeWavHead_length]; omega
  rw [ReadWavHeaderWithExtra_eq _ (by omega), resolvedOrder_le_encoding h rest h1 h2,
    decode_encode _ h hr rest]
  rw [finishHeader_ok _ _ _ h 44 h2 hb (by rw [hlen]; exact scanLoop_data _ _ _ _ _ _ ht)]
  have hs : (((encodeWavHead .LittleEndian h ++ rest).length : Int) - 44).tdiv
      ((h.BitsPerSample / 8 : Nat) : Int) = ((rest.length / (h.BitsPerSample / 8) : Nat) : Int) := by
    have : ((encodeWavHead .LittleEndian h ++ rest).length : Int) - 44 = (rest.length : Int) := by
      rw [hlen]; push_cast; omega
    rw [this]
    exact (Int.ofNat_tdiv _ _).symm
  rw [hs]

theorem NewWavHeader_inRange (nc sr bps n : Nat) (h1 : nc < 2 ^ 16) (h2 : sr < 2 ^ 32)
    (h3 : bps < 2 ^ 16) (h4 : n < 2 ^ 32) : (NewWavHeader nc sr bps n).InRange := by
  simp only [WavHead.InRange, NewWavHeader]
  refine ⟨?_, ?_, ?_, ?_, ?_, ?_, ?_, ?_, ?_⟩ <;> omega

theorem PcmToWav_eq (nc sr bps : Nat) (pcm : List Byte) :
    PcmToWav nc sr bps pcm =
      .ok (encodeWavHead .LittleEndian (NewWavHeader nc sr bps (pcm.length % 2 ^ 32)) ++ pcm) := rfl

/-- What `WavToPcm` returns on the output of `PcmToWav`, for every payload length. -/
theorem WavToPcm_PcmToWav_eq (nc sr bps : Nat) (pcm : List Byte)
    (h1 : 1 ≤ nc) (h2 : nc ≤ 200) (h3 : sr < 2 ^ 32) (h4 : 8 ≤ bps) (h5 : bps < 2 ^ 16) :
    WavToPcm (encodeWavHead .LittleEndian (NewWavHeader nc sr bps (pcm.length % 2 ^ 32)) ++ pcm) =
      .ok (pcm, { toWavHead := NewWavHeader nc sr bps (pcm.length % 2 ^ 32)
                  PcmOffset := 44
                  SampleNums := ((pcm.length / (bps / 8) : Nat) : Int) }) := by
  have hr := NewWavHeader_inRange nc sr bps (pcm.length % 2 ^ 32) (by omega) h3 h5
    (Nat.mod_lt _ (by decide))
  have hok := ReadWavHeaderWithExtra_le_canonical _ pcm hr h1 h2 h4 rfl
  have hw := WavToPcm_of_ok _ _ 44 hok rfl
    (by rw [List.length_append, encodeWavHead_length]; omega)
  rw [hw]
  have hd : List.drop 44 (encodeWavHead .LittleEndian
      (NewWavHeader nc sr bps (pcm.length % 2 ^ 32)) ++ pcm) = pcm := by
    rw [List.drop_append_of_le_length (by rw [encodeWavHead_length]),
      List.drop_of_length_le (by rw [encodeWavHead_length])]
    rfl
  rw [hd]
  rfl

/-- **C1 (as amended).** Round trip: for `numChannels` in `[1,8]`, `sampleRate` in
`{8000, 16000, 44100}`, `bitsPerSample` in `{8, 16, 32}` and every payload `pcm` with
`36 + len(pcm) < 2^32`, `PcmToWav` succeeds, `WavToPcm` of its output succeeds, the payload
returned is `pcm`, and the header returned has `NumChannels = numChannels`,
`SampleRate = sampleRate`, `BitsPerSample = bitsPerSample`, `Subchunk2Size = len(pcm)`,
`ChunkSize = 36 + len(pcm)` and `PcmOffset = 44`. -/
theorem C1_round_trip (nc sr bps : Nat) (pcm : List Byte)
    (hnc : 1 ≤ nc ∧ nc ≤ 8) (hsr : sr = 8000 ∨ sr = 16000 ∨ sr = 44100)
    (hbps : bps = 8 ∨ bps = 16 ∨ bps = 32) (hlen : 36 + pcm.length < 2 ^ 32) :
    ∃ wav h, PcmToWav nc sr bps pcm = .ok wav ∧ WavToPcm wav = .ok (pcm, h) ∧
      h.NumChannels = nc ∧ h.SampleRate = sr ∧ h.BitsPerSample = bps ∧
      h.Subchunk2Size = pcm.length ∧ h.ChunkSize = 36 + pcm.length ∧ h.PcmOffset = 44 := by
  refine ⟨_, _, PcmToWav_eq nc sr bps pcm,
    WavToPcm_PcmToWav_eq nc sr bps pcm hnc.1 (by omega) (by omega) (by omega) (by omega),
    rfl, rfl, rfl, ?_, ?_, rfl⟩
  · show pcm.length % 2 ^ 32 = pcm.length
    exact Nat.mod_eq_of_lt (by omega)
  · show (36 + pcm.length % 2 ^ 32) % 2 ^ 32 = 36 + pcm.length
    rw [Nat.mod_eq_of_lt (show pcm.length < 2 ^ 32 by omega), Nat.mod_eq_of_lt hlen]

/-- Witness for `C1_round_trip`: one channel, 8000 Hz, 16 bits, four payload bytes. -/
theorem C1_round_trip_witness :
    ∃ wav h, PcmToWav 1 8000 16 [1, 2, 3, 4] = .ok wav ∧ WavToPcm wav = .ok ([1, 2, 3, 4], h) ∧
      h.NumChannels = 1 ∧ h.SampleRate = 8000 ∧ h.BitsPerSample = 16 ∧
      h.Subchunk2Size = ([1, 2, 3, 4] : List Byte).length ∧
      h.ChunkSize = 36 + ([1, 2, 3, 4] : List Byte).length ∧ h.PcmOffset = 44 :=
  C1_round_trip 1 8000 16 [1, 2, 3, 4] (by decide) (by decide) (by decide) (by decide)

/-- The header sizes returned by the round trip when `len(pcm)` is `2^32`. -/
theorem round_trip_wrapped_sizes (pcm : List Byte) (hlen : pcm.length = 2 ^ 32) :
    ∃ wav h, PcmToWav 1 8000 8 pcm = .ok wav ∧ WavToPcm wav = .ok (pcm, h) ∧
      h.Subchunk2Size = 0 ∧ h.ChunkSize = 36 ∧
      h.Subchunk2Size ≠ pcm.length ∧ h.ChunkSize ≠ 36 + pcm.length := by
  have hl : pcm.length % 2 ^ 32 = 0 := by rw [hlen]; exact Nat.mod_self _
  have e1 : (NewWavHeader 1 8000 8 (pcm.length % 2 ^ 32)).Subchunk2Size = 0 := hl
  have e2 : (NewWavHeader 1 8000 8 (pcm.length % 2 ^ 32)).ChunkSize = 36 := by
    show (36 + pcm.length % 2 ^ 32) % 2 ^ 32 = 36
    rw [hl]
    decide
  refine ⟨_, _, PcmToWav_eq _ _ _ _,
    WavToPcm_PcmToWav_eq 1 8000 8 _ (by decide) (by decide) (by decide) (by decide) (by decide),
    e1, e2, ?_, ?_⟩
  · show (NewWavHeader 1 8000 8 (pcm.length % 2 ^ 32)).Subchunk2Size ≠ _
    rw [e1, hlen]; decide
  · show (NewWavHeader 1 8000 8 (pcm.length % 2 ^ 32)).ChunkSize ≠ _
    rw [e2, hlen]; decide

/-- **C1 (counterexample).** For a payload of `2^32` zero bytes (one channel, 8000 Hz, 8 bits)
the round trip succeeds and returns the payload, but the header returned has
`Subchunk2Size = 0` and `ChunkSize = 36`: the 32-bit size fields hold `len(pcm)` and
`36 + len(pcm)` modulo `2^32`, not `len(pcm) = 2^32` and `36 + len(pcm)`. -/
theorem C1_counterexample :
    ∃ wav h, PcmToWav 1 8000 8 (List.replicate (2 ^ 32) (0 : Byte)) = .ok wav ∧
      WavToPcm wav = .ok (List.replicate (2 ^ 32) (0 : Byte), h) ∧
      h.Subchunk2Size = 0 ∧ h.ChunkSize = 36 ∧
      h.Subchunk2Size ≠ (List.replicate (2 ^ 32) (0 : Byte)).length ∧
      h.ChunkSize ≠ 36 + (List.replicate (2 ^ 32) (0 : Byte)).length :=
  round_trip_wrapped_sizes _ (List.length_replicate _ _)

theorem getD_shift (a b : List Byte) (i : Nat) :
    (a ++ b).getD (a.length + i) 0 = b.getD i 0 := by
  rw [List.getD_append_right _ _ _ _ (by omega)]
  congr 1
  omega

theorem getD_left (a b : List Byte) (i : Nat) (h : i < a.length) :
    (a ++ b).getD i 0 = a.getD i 0 :=
  List.getD_append _ _ _ _ h

theorem tagAt_shift (a b : List Byte) (i : Nat) : tagAt (a ++ b) (a.length + i) = tagAt b i := by
  simp only [tagAt, Nat.add_assoc, getD_shift]

theorem tagAt_left (a b : List Byte) (i : Nat) (h : i + 4 ≤ a.length) :
    tagAt (a ++ b) i = tagAt a i := by
  simp only [tagAt]
  rw [getD_left a b i (by omega), getD_left a b (i + 1) (by omega),
    getD_left a b (i + 2) (by omega), getD_left a b (i + 3) (by omega)]

theorem Uint16_shift (o : ByteOrder) (a b : List Byte) (i : Nat) :
    o.Uint16 (a ++ b) (a.length + i) = o.Uint16 b i := by
  cases o <;> simp only [ByteOrder.Uint16, byteAt, Nat.add_assoc, getD_shift]

theorem Uint16_left (o : ByteOrder) (a b : List Byte) (i : Nat) (h : i + 2 ≤ a.length) :
    o.Uint16 (a ++ b) i = o.Uint16 a i := by
  cases o <;> simp only [ByteOrder.Uint16, byteAt] <;>
    rw [getD_left a b i (by omega), getD_left a b (i + 1) (by omega)]

theorem Uint32_shift (o : ByteOrder) (a b : List Byte) (i : Nat) :
    o.Uint32 (a ++ b) (a.length + i) = o.Uint32 b i := by
  cases o <;> simp only [ByteOrder.Uint32, byteAt, Nat.add_assoc, getD_shift]

theorem Uint32_left (o : ByteOrder) (a b : List Byte) (i : Nat) (h : i + 4 ≤ a.length) :
    o.Uint32 (a ++ b) i = o.Uint32 a i := by
  cases o <;> simp only [ByteOrder.Uint32, byteAt] <;>
    rw [getD_left a b i (by omega), getD_left a b (i + 1) (by omega),
      getD_left a b (i + 2) (by omega), getD_left a b (i + 3) (by omega)]

theorem tagAt_bytes (t : Tag) (b : List Byte) : tagAt (t.bytes ++ b) 0 = t := by
  rcases t with ⟨t0, t1, t2, t3⟩
  simp [tagAt, Tag.bytes]

theorem Tag.bytes_length (t : Tag) : t.bytes.length = 4 := rfl

theorem resolvedOrder_left (a b : List Byte) (h : 24 ≤ a.length) :
    resolvedOrder (a ++ b) = resolvedOrder a := by
  unfold resolvedOrder
  rw [Uint16_left _ a b 22 (by omega)]

/-- The scan over a buffer whose first descriptor (at offset 36) is not `"data"` and whose
second descriptor is. -/
theorem ReadWavHeaderWithExtra_one_skip (wav : List Byte) (hlen : 44 ≤ wav.length)
    (hnc : (resolvedOrder wav).Uint16 wav 22 ≤ 200)
    (hb : 8 ≤ (resolvedOrder wav).Uint16 wav 34)
    (ht : tagAt wav 36 ≠ tagData)
    (hfit : 44 + (resolvedOrder wav).Uint32 wav 40 + 8 ≤ wav.length)
    (ht2 : tagAt wav (44 + (resolvedOrder wav).Uint32 wav 40) = tagData) :
    ReadWavHeaderWithExtra wav =
      .ok { toWavHead := decodeWavHead (resolvedOrder wav) wav 0
            PcmOffset := ((52 + (resolvedOrder wav).Uint32 wav 40 : Nat) : Int)
            SampleNums := (((wav.length - (52 + (resolvedOrder wav).Uint32 wav 40)) /
              ((resolvedOrder wav).Uint16 wav 34 / 8) : Nat) : Int) } := by
  rw [ReadWavHeaderWithExtra_eq wav hlen]
  generalize ho : resolvedOrder wav = o at *
  have hfuel : wav.length = (wav.length - 2) + 1 + 1 := by omega
  have hscan : scanLoop wav o wav.length 44 44 (decodeWavHead o wav 0).toData =
      .ok ((52 + o.Uint32 wav 40 : Nat) : Int) := by
    rw [hfuel, decodeWavHead_toData, scanLoop_skip _ _ _ _ _ _ ht hfit,
      scanLoop_data _ _ _ _ _ _ ht2]
    congr 1
    show (44 : Int) + ((o.Uint32 wav 40 : Nat) + 8) = _
    push_cast
    ring
  rw [finishHeader_ok _ _ _ _ _ hnc hb hscan]
  have hs : ((wav.length : Int) - ((52 + o.Uint32 wav 40 : Nat) : Int)).tdiv
      (((decodeWavHead o wav 0).BitsPerSample / 8 : Nat) : Int) =
      (((wav.length - (52 + o.Uint32 wav 40)) / (o.Uint16 wav 34 / 8) : Nat) : Int) := by
    have : (wav.length : Int) - ((52 + o.Uint32 wav 40 : Nat) : Int) =
        ((wav.length - (52 + o.Uint32 wav 40) : Nat) : Int) := by
      push_cast
      omega
    rw [this]
    exact (Int.ofNat_tdiv _ _).symm
  rw [hs]

/-- **C2.** Chunk skipping: a buffer made of a 36-byte RIFF+fmt header `hdr` (channel count
at most 200 and `BitsPerSample` at least 8 under the resolved byte order), one chunk whose
tag is not `"data"` (descriptor `tag`, `sz`; payload `skip` of the declared length), a
`"data"` descriptor (size bytes `dsz`) and a payload `p` that ends the buffer: the decoder
succeeds with `PcmOffset = 36 + 8 + len(skip) + 8`, which is the index of the first byte of
`p`, with `SampleNums = len(p) / (BitsPerSample / 8)`, and `WavToPcm` returns exactly `p`. -/
theorem C2_chunk_skipping (hdr : List Byte) (tag : Tag) (sz skip dsz p : List Byte)
    (hhdr : hdr.length = 36) (hsz : sz.length = 4) (hdsz : dsz.length = 4)
    (htag : tag ≠ tagData)
    (hnc : (resolvedOrder hdr).Uint16 hdr 22 ≤ 200)
    (hb : 8 ≤ (resolvedOrder hdr).Uint16 hdr 34)
    (hskip : skip.length = (resolvedOrder hdr).Uint32 sz 0) :
    ∃ h, ReadWavHeaderWithExtra
          (hdr ++ (tag.bytes ++ (sz ++ (skip ++ (tagData.bytes ++ (dsz ++ p)))))) = .ok h ∧
      h.PcmOffset = ((36 + 8 + skip.length + 8 : Nat) : Int) ∧
      (hdr ++ (tag.bytes ++ (sz ++ (skip ++ (tagData.bytes ++ (dsz ++ p)))))).drop
        (36 + 8 + skip.length + 8) = p ∧
      h.BitsPerSample = (resolvedOrder hdr).Uint16 hdr 34 ∧
      h.SampleNums = ((p.length / (h.BitsPerSample / 8) : Nat) : Int) ∧
      WavToPcm (hdr ++ (tag.bytes ++ (sz ++ (skip ++ (tagData.bytes ++ (dsz ++ p)))))) =
        .ok (p, h) := by
  generalize hw : hdr ++ (tag.bytes ++ (sz ++ (skip ++ (tagData.bytes ++ (dsz ++ p))))) = wav
  have hlen : wav.length = 36 + 8 + skip.length + 8 + p.length := by
    rw [← hw]
    simp only [List.length_append, Tag.bytes_length, hhdr, hsz, hdsz]
    omega
  have ho : resolvedOrder wav = resolvedOrder hdr := by
    rw [← hw]; exact resolvedOrder_left _ _ (by omega)
  have e22 : (resolvedOrder hdr).Uint16 wav 22 = (resolvedOrder hdr).Uint16 hdr 22 := by
    rw [← hw]; exact Uint16_left _ _ _ _ (by omega)
  have e34 : (resolvedOrder hdr).Uint16 wav 34 = (resolvedOrder hdr).Uint16 hdr 34 := by
    rw [← hw]; exact Uint16_left _ _ _ _ (by omega)
  have e36 : tagAt wav 36 = tag := by
    rw [← hw]
    have := tagAt_shift hdr (tag.bytes ++ (sz ++ (skip ++ (tagData.bytes ++ (dsz ++ p))))) 0
    rw [hhdr] at this
    rw [this, tagAt_bytes]
  have e40 : (resolvedOrder hdr).Uint32 wav 40 = skip.length := by
    rw [← hw, hskip]
    have h1 := Uint32_shift (resolvedOrder hdr) hdr
      (tag.bytes ++ (sz ++ (skip ++ (tagData.bytes ++ (dsz ++ p))))) 4
    rw [hhdr] at h1
    have h2 := Uint32_shift (resolvedOrder hdr) tag.bytes
      (sz ++ (skip ++ (tagData.bytes ++ (dsz ++ p)))) 0
    rw [Tag.bytes_length] at h2
    rw [h1, h2]
    exact Uint32_left _ _ _ _ (by omega)
  have edata : tagAt wav (44 + skip.length) = tagData := by
    rw [← hw]
    have h1 := tagAt_shift hdr (tag.bytes ++ (sz ++ (skip ++ (tagData.bytes ++ (dsz ++ p)))))
      (8 + skip.length)
    rw [hhdr] at h1
    have h2 := tagAt_shift tag.bytes (sz ++ (skip ++ (tagData.bytes ++ (dsz ++ p))))
      (4 + skip.length)
    rw [Tag.bytes_length] at h2
    have h3 := tagAt_shift sz (skip ++ (tagData.bytes ++ (dsz ++ p))) skip.length
    rw [hsz] at h3
    have h4 := tagAt_shift skip (tagData.bytes ++ (dsz ++ p)) 0
    rw [Nat.add_zero] at h4
    rw [show 44 + skip.length = 36 + (8 + skip.length) by omega, h1,
      show 8 + skip.length = 4 + (4 + skip.length) by omega, h2, h3, h4, tagAt_bytes]
  have hdrop : wav.drop (36 + 8 + skip.length + 8) = p := by
    rw [← hw]
    have : 36 + 8 + skip.length + 8 =
        (hdr ++ (tag.bytes ++ (sz ++ (skip ++ (tagData.bytes ++ dsz))))).length + 0 := by
      simp only [List.length_append, Tag.bytes_length, hhdr, hsz, hdsz]
      omega
    rw [this]
    have assoc : hdr ++ (tag.bytes ++ (sz ++ (skip ++ (tagData.bytes ++ (dsz ++ p))))) =
        (hdr ++ (tag.bytes ++ (sz ++ (skip ++ (tagData.bytes ++ dsz))))) ++ p := by
      simp only [List.append_assoc]
    rw [assoc, List.drop_append]
    rfl
  have hok := ReadWavHeaderWithExtra_one_skip wav (by omega)
    (by rw [ho, e22]; exact hnc) (by rw [ho, e34]; exact hb) (by rw [e36]; exact htag)
    (by rw [ho, e40]; omega) (by rw [ho, e40]; exact edata)
  rw [ho, e40, e34] at hok
  have hoff : (52 + skip.length : Nat) = 36 + 8 + skip.length + 8 := by omega
  rw [hoff] at hok
  refine ⟨_, hok, rfl, hdrop, e34, ?_, ?_⟩
  · show (((wav.length - (36 + 8 + skip.length + 8)) /
        ((resolvedOrder hdr).Uint16 hdr 34 / 8) : Nat) : Int) =
      ((p.length / ((resolvedOrder hdr).Uint16 wav 34 / 8) : Nat) : Int)
    rw [e34, hlen]
    congr 2
    omega
  · have := WavToPcm_of_ok wav _ (36 + 8 + skip.length + 8) hok rfl (by omega)
    rw [this, hdrop]

/-- Witness for `C2_chunk_skipping`: the spec's example, a 20-byte `"LIST"` chunk between the
format block and a `"data"` chunk of four bytes. -/
theorem C2_chunk_skipping_witness :
    ∃ h, ReadWavHeaderWithExtra
          (fixtureHdr ++ (tagLIST.bytes ++ ([20, 0, 0, 0] ++ (fixtureSkip ++
            (tagData.bytes ++ ([4, 0, 0, 0] ++ [1, 2, 3, 4])))))) = .ok h ∧
      h.PcmOffset = ((36 + 8 + fixtureSkip.length + 8 : Nat) : Int) ∧
      (fixtureHdr ++ (tagLIST.bytes ++ ([20, 0, 0, 0] ++ (fixtureSkip ++
            (tagData.bytes ++ ([4, 0, 0, 0] ++ [1, 2, 3, 4])))))).drop
        (36 + 8 + fixtureSkip.length + 8) = [1, 2, 3, 4] ∧
      h.BitsPerSample = (resolvedOrder fixtureHdr).Uint16 fixtureHdr 34 ∧
      h.SampleNums = ((([1, 2, 3, 4] : List Byte).length / (h.BitsPerSample / 8) : Nat) : Int) ∧
      WavToPcm (fixtureHdr ++ (tagLIST.bytes ++ ([20, 0, 0, 0] ++ (fixtureSkip ++
            (tagData.bytes ++ ([4, 0, 0, 0] ++ [1, 2, 3, 4])))))) = .ok ([1, 2, 3, 4], h) :=
  C2_chunk_skipping fixtureHdr tagLIST [20, 0, 0, 0] fixtureSkip [4, 0, 0, 0] [1, 2, 3, 4]
    (by decide) (by decide) (by decide) (by decide) (by decide) (by decide) (by decide)

theorem finishHeader_error (fuel : Nat) (wav : List Byte) (o : ByteOrder) (head : WavHead)
    (e : GoError) (hs : scanLoop wav o fuel 44 44 head.toData = .error e) :
    ∃ e', finishHeader fuel wav o head = .error e' := by
  unfold finishHeader
  by_cases hnc : head.NumChannels > 200
  · exact ⟨_, if_pos hnc⟩
  · rw [if_neg hnc]
    simp only [sizeWavHead, Nat.cast_ofNat, hs]
    exact ⟨e, rfl⟩

theorem nthChunk_scan (wav : List Byte) (o : ByteOrder) :
    ∀ (k pos : Nat) (d : Data), nthChunk wav o k = some (pos, d) →
      44 + 8 * k ≤ pos ∧ (k = 0 ∨ pos ≤ wav.length) ∧
      ∀ fuel, scanLoop wav o (fuel + k) 44 44 (decodeData o wav 36) =
        scanLoop wav o fuel pos (pos : Int) d := by
  intro k
  induction k with
  | zero =>
    intro pos d h
    simp only [nthChunk, Option.some.injEq, Prod.mk.injEq] at h
    obtain ⟨rfl, rfl⟩ := h
    exact ⟨by omega, Or.inl rfl, fun fuel => rfl⟩
  | succ k ih =>
    intro pos d h
    simp only [nthChunk] at h
    cases hk : nthChunk wav o k with
    | none => rw [hk] at h; cases h
    | some pd =>
      obtain ⟨pos0, d0⟩ := pd
      rw [hk] at h
      simp only at h
      by_cases hc : d0.Subchunk2ID ≠ tagData ∧ pos0 + d0.Subchunk2Size + 8 ≤ wav.length
      · rw [if_pos hc] at h
        simp only [Option.some.injEq, Prod.mk.injEq] at h
        obtain ⟨rfl, rfl⟩ := h
        obtain ⟨h1, _, h3⟩ := ih pos0 d0 hk
        refine ⟨by omega, Or.inr hc.2, fun fuel => ?_⟩
        rw [show fuel + (k + 1) = (fuel + 1) + k by omega, h3 (fuel + 1),
          scanLoop_skip _ _ _ _ _ _ hc.1 hc.2]
        congr 1
      · rw [if_neg hc] at h
        cases h

theorem tagAt_occurs (wav : List Byte) (i : Nat) (t : Tag) (hi : i + 4 ≤ wav.length)
    (ht : tagAt wav i = t) : t.bytes <:+: wav := by
  have hw : wav = wav.take i ++ wav.drop i := (List.take_append_drop i wav).symm
  have hl : (wav.take i).length = i := by rw [List.length_take]; omega
  have hd : (wav.drop i).length = wav.length - i := List.length_drop i wav
  match hs : wav.drop i with
  | [] => rw [hs] at hd; simp at hd; omega
  | [_] => rw [hs] at hd; simp at hd; omega
  | [_, _] => rw [hs] at hd; simp at hd; omega
  | [_, _, _] => rw [hs] at hd; simp at hd; omega
  | a :: b :: c :: e :: rest =>
    have h1 := tagAt_shift (wav.take i) (wav.drop i) 0
    rw [← hw, hl, Nat.add_zero, ht, hs] at h1
    refine ⟨wav.take i, rest, ?_⟩
    rw [h1]
    conv_rhs => rw [hw, hs]
    simp [tagAt, Tag.bytes]

theorem ReadWavHeaderWithExtra_ok_inv (wav : List Byte) (h : WavHeaderWithExtra)
    (hok : ReadWavHeaderWithExtra wav = .ok h) :
    44 ≤ wav.length ∧ h.NumChannels ≤ 200 ∧
      h.toWavHead = decodeWavHead (resolvedOrder wav) wav 0 ∧
      scanLoop wav (resolvedOrder wav) wav.length 44 44 (decodeData (resolvedOrder wav) wav 36) =
        .ok h.PcmOffset ∧
      8 ≤ h.BitsPerSample ∧
      h.SampleNums = ((wav.length : Int) - h.PcmOffset).tdiv ((h.BitsPerSample / 8 : Nat) : Int) := by
  by_cases hlen : 44 ≤ wav.length
  · rw [ReadWavHeaderWithExtra_eq wav hlen] at hok
    obtain ⟨h1, h2, h3, h4, h5⟩ := finishHeader_inv _ _ _ _ _ hok
    rw [decodeWavHead_toData] at h3
    refine ⟨hlen, ?_, h2, h3, ?_, ?_⟩
    · rw [h2]; exact h1
    · rw [h2]; exact h4
    · rw [h2]; exact h5
  · rw [ReadWavHeaderWithExtra_short wav (by omega)] at hok
    cases hok

theorem ReadWavHeaderWithExtra_ok_bounds (wav : List Byte) (h : WavHeaderWithExtra)
    (hok : ReadWavHeaderWithExtra wav = .ok h) :
    44 ≤ h.PcmOffset ∧ h.PcmOffset ≤ (wav.length : Int) := by
  obtain ⟨hlen, _, _, hs, _, _⟩ := ReadWavHeaderWithExtra_ok_inv wav h hok
  exact scanLoop_ok_bounds wav _ wav.length 44 _ _ hlen hs

theorem WavToPcm_error (wav : List Byte) (e : GoError)
    (h : ReadWavHeaderWithExtra wav = .error e) : WavToPcm wav = .error e := by
  unfold WavToPcm
  rw [h]

theorem ReadWavHeaderWithExtra_scan_error (wav : List Byte) (e : GoError)
    (hs : scanLoop wav (resolvedOrder wav) wav.length 44 44
      (decodeData (resolvedOrder wav) wav 36) = .error e) :
    ∃ e', ReadWavHeaderWithExtra wav = .error e' := by
  by_cases hlen : 44 ≤ wav.length
  · rw [ReadWavHeaderWithExtra_eq wav hlen]
    exact finishHeader_error _ _ _ _ e hs
  · exact ⟨_, ReadWavHeaderWithExtra_short wav (by omega)⟩

theorem finishHeader_panic (fuel : Nat) (wav : List Byte) (o : ByteOrder) (head : WavHead)
    (p : GoPanic) (hp : finishHeader fuel wav o head = .panic p) :
    p = .integerDivideByZero := by
  unfold finishHeader at hp
  by_cases hnc : head.NumChannels > 200
  · rw [if_pos hnc] at hp; cases hp
  · rw [if_neg hnc] at hp
    cases hs : scanLoop wav o fuel sizeWavHead (sizeWavHead : Int) head.toData with
    | ok r =>
      rw [hs] at hp
      simp only at hp
      by_cases hd : (head.BitsPerSample : Int).tdiv 8 = 0
      · rw [if_pos hd] at hp
        cases hp
        rfl
      · rw [if_neg hd] at hp
        cases hp
    | error e => rw [hs] at hp; cases hp
    | panic q => exact absurd hs (scanLoop_not_panic _ _ _ _ _ _ _)
    | diverge => rw [hs] at hp; cases hp

theorem ReadWavHeaderWithExtra_panic (wav : List Byte) (p : GoPanic)
    (hp : ReadWavHeaderWithExtra wav = .panic p) : p = .integerDivideByZero := by
  by_cases hlen : 44 ≤ wav.length
  · rw [ReadWavHeaderWithExtra_eq wav hlen] at hp
    exact finishHeader_panic _ _ _ _ _ hp
  · rw [ReadWavHeaderWithExtra_short wav (by omega)] at hp
    cases hp

/-- **C3.** Bounds safety of the scan. For every buffer: a successful
`ReadWavHeaderWithExtra` has `44 ≤ PcmOffset ≤ len(wav)`; hence the slice `wav[PcmOffset:]`
of `WavToPcm` never panics; and whenever a chunk the scan passes has a tag other than
`"data"` and a declared payload length after which no full 8-byte descriptor is left in
the buffer, both functions return an error. -/
theorem C3_scan_bounds (wav : List Byte) :
    (∀ h, ReadWavHeaderWithExtra wav = .ok h →
      44 ≤ h.PcmOffset ∧ h.PcmOffset ≤ (wav.length : Int)) ∧
    WavToPcm wav ≠ .panic .sliceBoundsOutOfRange ∧
    (∀ k pos d, nthChunk wav (resolvedOrder wav) k = some (pos, d) →
      d.Subchunk2ID ≠ tagData → wav.length < pos + d.Subchunk2Size + 8 →
      ∃ e, ReadWavHeaderWithExtra wav = .error e ∧ WavToPcm wav = .error e) := by
  refine ⟨ReadWavHeaderWithExtra_ok_bounds wav, ?_, ?_⟩
  · unfold WavToPcm
    cases hr : ReadWavHeaderWithExtra wav with
    | ok h =>
      have hb := ReadWavHeaderWithExtra_ok_bounds wav h hr
      simp only
      rw [if_pos ⟨by omega, hb.2⟩]
      simp
    | error e => simp
    | panic p =>
      have := ReadWavHeaderWithExtra_panic wav p hr
      subst this
      simp
    | diverge => simp
  · intro k pos d hk hd hover
    obtain ⟨h1, h2, h3⟩ := nthChunk_scan wav _ k pos d hk
    by_cases hlen : 44 ≤ wav.length
    · have hkl : k + 1 ≤ wav.length := by
        rcases h2 with h2 | h2
        · omega
        · omega
      have hs := h3 (wav.length - k - 1 + 1)
      rw [show wav.length - k - 1 + 1 + k = wav.length by omega,
        scanLoop_overrun _ _ _ _ _ _ hd hover] at hs
      obtain ⟨e, he⟩ := ReadWavHeaderWithExtra_scan_error wav _ hs
      exact ⟨e, he, WavToPcm_error wav e he⟩
    · exact ⟨_, ReadWavHeaderWithExtra_short wav (by omega),
        WavToPcm_error wav _ (ReadWavHeaderWithExtra_short wav (by omega))⟩

/-- Witness for `C3_scan_bounds`: in `overrunWav` the first chunk declares 1000 payload bytes
in a 52-byte buffer, and both functions return an error. -/
theorem C3_scan_bounds_witness :
    ∃ e, ReadWavHeaderWithExtra overrunWav = .error e ∧ WavToPcm overrunWav = .error e :=
  (C3_scan_bounds overrunWav).2.2 0 44 (decodeData (resolvedOrder overrunWav) overrunWav 36)
    (by decide) (by decide) (by decide)

theorem scanLoop_is_error (wav : List Byte) (o : ByteOrder) (d : Data)
    (hlen : 44 ≤ wav.length) (hd : d.Subchunk2ID ≠ tagData)
    (hno : ∀ i, i + 8 ≤ wav.length → tagAt wav i ≠ tagData) :
    ∃ e, scanLoop wav o wav.length 44 44 d = .error e := by
  cases hs : scanLoop wav o wav.length 44 44 d with
  | ok r => exact absurd hs (scanLoop_no_tag wav o hno _ _ _ _ r hd)
  | error e => exact ⟨e, rfl⟩
  | panic p => exact absurd hs (scanLoop_not_panic _ _ _ _ _ _ _)
  | diverge => exact absurd hs (scanLoop_not_diverge wav o _ _ _ _ hlen (by omega))

/-- **C4.** Missing data chunk: for every buffer in which the four bytes `"data"` occur at no
position, `ReadWavHeaderWithExtra` and `WavToPcm` return an error (not a header or payload,
not a panic, and not an unfinished scan). -/
theorem C4_missing_data_chunk (wav : List Byte) (hno : ¬ tagData.bytes <:+: wav) :
    ∃ e, ReadWavHeaderWithExtra wav = .error e ∧ WavToPcm wav = .error e := by
  have hno' : ∀ i, i + 4 ≤ wav.length → tagAt wav i ≠ tagData :=
    fun i hi ht => hno (tagAt_occurs wav i tagData hi ht)
  by_cases hlen : 44 ≤ wav.length
  · obtain ⟨e, he⟩ := scanLoop_is_error wav (resolvedOrder wav)
      (decodeData (resolvedOrder wav) wav 36) hlen (hno' 36 (by omega))
      (fun i hi => hno' i (by omega))
    obtain ⟨e', he'⟩ := ReadWavHeaderWithExtra_scan_error wav e he
    exact ⟨e', he', WavToPcm_error wav e' he'⟩
  · exact ⟨_, ReadWavHeaderWithExtra_short wav (by omega),
      WavToPcm_error wav _ (ReadWavHeaderWithExtra_short wav (by omega))⟩

/-- Witness for `C4_missing_data_chunk`: the spec's example, a buffer that ends right after
the 36-byte format block. -/
theorem C4_missing_data_chunk_witness :
    ∃ e, ReadWavHeaderWithExtra fixtureHdr = .error e ∧ WavToPcm fixtureHdr = .error e :=
  C4_missing_data_chunk fixtureHdr (by decide)

/-- **C5 (the code at the failing input).** On the 44-byte canonical header `zeroWidthWav`,
whose channel count is 1, whose descriptor at offset 36 is `"data"` and whose `BitsPerSample`
is 0, `ReadWavHeaderWithExtra` and `WavToPcm` do not return an error: the division by
`BitsPerSample / 8 = 0` panics. -/
theorem C5_zero_width_panics :
    ReadWavHeaderWithExtra zeroWidthWav = .panic .integerDivideByZero ∧
    WavToPcm zeroWidthWav = .panic .integerDivideByZero ∧
    (decodeWavHead (resolvedOrder zeroWidthWav) zeroWidthWav 0).NumChannels = 1 ∧
    (decodeWavHead (resolvedOrder zeroWidthWav) zeroWidthWav 0).BitsPerSample = 0 ∧
    (decodeWavHead (resolvedOrder zeroWidthWav) zeroWidthWav 0).Subchunk2ID = tagData := by
  decide

/-- Every buffer with a plausible channel count, a `"data"` descriptor at offset 36 and
`BitsPerSample < 8` makes `ReadWavHeaderWithExtra` panic. -/
theorem ReadWavHeaderWithExtra_small_width (wav : List Byte) (hlen : 44 ≤ wav.length)
    (hnc : (resolvedOrder wav).Uint16 wav 22 ≤ 200)
    (hb : (resolvedOrder wav).Uint16 wav 34 < 8) (ht : tagAt wav 36 = tagData) :
    ReadWavHeaderWithExtra wav = .panic .integerDivideByZero := by
  rw [ReadWavHeaderWithExtra_eq wav hlen]
  refine finishHeader_zero_width _ _ _ _ 44 hnc hb ?_
  rw [show wav.length = wav.length - 1 + 1 by omega]
  exact scanLoop_data _ _ _ _ _ _ ht

/-- Every buffer with a plausible channel count, a `"data"` descriptor at offset 36 and
`BitsPerSample ≥ 8` decodes with `PcmOffset = 44`. -/
theorem ReadWavHeaderWithExtra_data_at_36 (wav : List Byte) (hlen : 44 ≤ wav.length)
    (hnc : (resolvedOrder wav).Uint16 wav 22 ≤ 200)
    (hb : 8 ≤ (resolvedOrder wav).Uint16 wav 34) (ht : tagAt wav 36 = tagData) :
    ReadWavHeaderWithExtra wav =
      .ok { toWavHead := decodeWavHead (resolvedOrder wav) wav 0
            PcmOffset := 44
            SampleNums := ((wav.length : Int) - 44).tdiv
              (((resolvedOrder wav).Uint16 wav 34 / 8 : Nat) : Int) } := by
  rw [ReadWavHeaderWithExtra_eq wav hlen]
  refine finishHeader_ok _ _ _ _ 44 hnc hb ?_
  rw [show wav.length = wav.length - 1 + 1 by omega]
  exact scanLoop_data _ _ _ _ _ _ ht

/-- **C6 (the code at the failing input).** `extendedFmtWav` is a well-formed file whose
format block declares `Subchunk1Size = 18`: one channel, 16 bits per sample, the `"data"`
descriptor at offset 20 + 18 = 38 and the payload at offset 28 + 18 = 46. The decoder does not
return `PcmOffset = 28 + 18`: it takes the descriptor from offset 36 (tag bytes
`0, 0, 'd', 'a'`, size 287092), skips past the end of the buffer and returns `io.EOF`; so
does `WavToPcm`. -/
theorem C6_extended_fmt_misread :
    (decodeWavHead (resolvedOrder extendedFmtWav) extendedFmtWav 0).Subchunk1Size = 18 ∧
    (decodeWavHead (resolvedOrder extendedFmtWav) extendedFmtWav 0).NumChannels = 1 ∧
    (decodeWavHead (resolvedOrder extendedFmtWav) extendedFmtWav 0).BitsPerSample = 16 ∧
    tagAt extendedFmtWav (20 + 18) = tagData ∧
    extendedFmtWav.drop (28 + 18) = [1, 2, 3, 4] ∧
    decodeData (resolvedOrder extendedFmtWav) extendedFmtWav 36 =
      { Subchunk2ID := (0, 0, 100, 97), Subchunk2Size := 287092 } ∧
    ReadWavHeaderWithExtra extendedFmtWav = .error .EOF ∧
    WavToPcm extendedFmtWav = .error .EOF ∧
    ¬ ∃ h, ReadWavHeaderWithExtra extendedFmtWav = .ok h ∧ h.PcmOffset = 28 + 18 := by
  refine ⟨by decide, by decide, by decide, by decide, by decide, by decide, by decide,
    by decide, ?_⟩
  rintro ⟨h, hok, -⟩
  have : ReadWavHeaderWithExtra extendedFmtWav = .error .EOF := by decide
  rw [this] at hok
  cases hok

/-- **C7.** Truncated header: `ReadWavHeader` returns an error exactly when the buffer has
fewer than 44 bytes, and on such a buffer `ReadWavHeaderWithExtra` and `WavToPcm` return an
error as well (an error carries no header and no payload). -/
theorem C7_truncated_header (wav : List Byte) :
    ((∃ e, ReadWavHeader wav = .error e) ↔ wav.length < 44) ∧
    (wav.length < 44 →
      ∃ e, ReadWavHeaderWithExtra wav = .error e ∧ WavToPcm wav = .error e) := by
  constructor
  · constructor
    · rintro ⟨e, he⟩
      by_contra hlen
      rw [ReadWavHeader_eq wav (by omega)] at he
      cases he
    · intro hlen
      exact ⟨_, ReadWavHeader_short wav hlen⟩
  · intro hlen
    exact ⟨_, ReadWavHeaderWithExtra_short wav hlen,
      WavToPcm_error wav _ (ReadWavHeaderWithExtra_short wav hlen)⟩

/-- Witness for `C7_truncated_header`: the 36-byte buffer `fixtureHdr`. -/
theorem C7_truncated_header_witness :
    ∃ e, ReadWavHeaderWithExtra fixtureHdr = .error e ∧ WavToPcm fixtureHdr = .error e :=
  (C7_truncated_header fixtureHdr).2 (by decide)

theorem finishHeader_implausible (fuel : Nat) (wav : List Byte) (o : ByteOrder) (head : WavHead)
    (h : 200 < head.NumChannels) : finishHeader fuel wav o head = .error .mayNotWavFormat := by
  unfold finishHeader
  rw [if_pos h]

theorem finishHeader_scan_error (fuel : Nat) (wav : List Byte) (o : ByteOrder) (head : WavHead)
    (e : GoError) (hnc : head.NumChannels ≤ 200)
    (hs : scanLoop wav o fuel 44 44 head.toData = .error e) :
    finishHeader fuel wav o head = .error e := by
  unfold finishHeader
  rw [if_neg (by omega)]
  simp only [sizeWavHead, Nat.cast_ofNat, hs]

/-- The result of `ReadWavHeaderWithExtra` once the byte order `o` is settled and the channel
count is plausible: success from a successful scan and a sample width of at least 8, the
scan's error otherwise. -/
theorem ReadWavHeaderWithExtra_of_order (wav : List Byte) (o : ByteOrder)
    (hlen : 44 ≤ wav.length) (ho : resolvedOrder wav = o) (hnc : o.Uint16 wav 22 ≤ 200) :
    (∀ r, scanLoop wav o wav.length 44 44 (decodeData o wav 36) = .ok r →
      8 ≤ o.Uint16 wav 34 →
      ReadWavHeaderWithExtra wav =
        .ok { toWavHead := decodeWavHead o wav 0
              PcmOffset := r
              SampleNums := ((wav.length : Int) - r).tdiv ((o.Uint16 wav 34 / 8 : Nat) : Int) }) ∧
    (∀ e, scanLoop wav o wav.length 44 44 (decodeData o wav 36) = .error e →
      ReadWavHeaderWithExtra wav = .error e) ∧
    (tagAt wav 36 = tagData → 8 ≤ o.Uint16 wav 34 →
      ReadWavHeaderWithExtra wav =
        .ok { toWavHead := decodeWavHead o wav 0
              PcmOffset := 44
              SampleNums := ((wav.length : Int) - 44).tdiv ((o.Uint16 wav 34 / 8 : Nat) : Int) }) := by
  subst ho
  refine ⟨?_, ?_, ?_⟩
  · intro r hs hb
    rw [ReadWavHeaderWithExtra_eq wav hlen]
    exact finishHeader_ok _ _ _ _ r hnc hb hs
  · intro e hs
    rw [ReadWavHeaderWithExtra_eq wav hlen]
    exact finishHeader_scan_error _ _ _ _ e hnc hs
  · intro ht hb
    exact ReadWavHeaderWithExtra_data_at_36 wav hlen hnc hb ht

/-- **C8.** Byte-order resolution and `NotWavFormat`, for every buffer of at least 44 bytes.

* When the big-endian channel count (bytes 22..23) is at most 200 the big-endian decoding is
  kept: if the scan with big-endian descriptors finds the payload at `r` and the big-endian
  `BitsPerSample` is at least 8, the call succeeds with the big-endian header and
  `PcmOffset = r` (in particular `PcmOffset = 44` when the descriptor at offset 36 is
  `"data"`); if that scan fails, the call returns the scan's error; and every successful
  result carries the big-endian header and the offset of the big-endian scan.
* Otherwise the same bytes are decoded little-endian: every successful result carries the
  little-endian header and the offset of the little-endian scan, and when the little-endian
  channel count is at most 200 the call succeeds from a successful little-endian scan and a
  little-endian `BitsPerSample` of at least 8, and returns the scan's error from a failed one.
* When the count exceeds 200 under both orders the result is the error `may not wav format`.
* Every successful result has `NumChannels ≤ 200`. -/
theorem C8_byte_order_resolution (wav : List Byte) (hlen : 44 ≤ wav.length) :
    (ByteOrder.BigEndian.Uint16 wav 22 ≤ 200 →
      (∀ r, scanLoop wav .BigEndian wav.length 44 44 (decodeData .BigEndian wav 36) = .ok r →
        8 ≤ ByteOrder.BigEndian.Uint16 wav 34 →
        ReadWavHeaderWithExtra wav =
          .ok { toWavHead := decodeWavHead .BigEndian wav 0
                PcmOffset := r
                SampleNums := ((wav.length : Int) - r).tdiv
                  ((ByteOrder.BigEndian.Uint16 wav 34 / 8 : Nat) : Int) }) ∧
      (∀ e, scanLoop wav .BigEndian wav.length 44 44 (decodeData .BigEndian wav 36) = .error e →
        ReadWavHeaderWithExtra wav = .error e) ∧
      (tagAt wav 36 = tagData → 8 ≤ ByteOrder.BigEndian.Uint16 wav 34 →
        ReadWavHeaderWithExtra wav =
          .ok { toWavHead := decodeWavHead .BigEndian wav 0
                PcmOffset := 44
                SampleNums := ((wav.length : Int) - 44).tdiv
                  ((ByteOrder.BigEndian.Uint16 wav 34 / 8 : Nat) : Int) }) ∧
      (∀ h, ReadWavHeaderWithExtra wav = .ok h →
        h.toWavHead = decodeWavHead .BigEndian wav 0 ∧
        scanLoop wav .BigEndian wav.length 44 44 (decodeData .BigEndian wav 36) =
          .ok h.PcmOffset)) ∧
    (200 < ByteOrder.BigEndian.Uint16 wav 22 →
      (∀ h, ReadWavHeaderWithExtra wav = .ok h →
        h.toWavHead = decodeWavHead .LittleEndian wav 0 ∧
        scanLoop wav .LittleEndian wav.length 44 44 (decodeData .LittleEndian wav 36) =
          .ok h.PcmOffset) ∧
      (ByteOrder.LittleEndian.Uint16 wav 22 ≤ 200 →
        (∀ r, scanLoop wav .LittleEndian wav.length 44 44
            (decodeData .LittleEndian wav 36) = .ok r →
          8 ≤ ByteOrder.LittleEndian.Uint16 wav 34 →
          ReadWavHeaderWithExtra wav =
            .ok { toWavHead := decodeWavHead .LittleEndian wav 0
                  PcmOffset := r
                  SampleNums := ((wav.length : Int) - r).tdiv
                    ((ByteOrder.LittleEndian.Uint16 wav 34 / 8 : Nat) : Int) }) ∧
        (∀ e, scanLoop wav .LittleEndian wav.length 44 44
            (decodeData .LittleEndian wav 36) = .error e →
          ReadWavHeaderWithExtra wav = .error e) ∧
        (tagAt wav 36 = tagData → 8 ≤ ByteOrder.LittleEndian.Uint16 wav 34 →
          ReadWavHeaderWithExtra wav =
            .ok { toWavHead := decodeWavHead .LittleEndian wav 0
                  PcmOffset := 44
                  SampleNums := ((wav.length : Int) - 44).tdiv
                    ((ByteOrder.LittleEndian.Uint16 wav 34 / 8 : Nat) : Int) }))) ∧
    (200 < ByteOrder.BigEndian.Uint16 wav 22 → 200 < ByteOrder.LittleEndian.Uint16 wav 22 →
      ReadWavHeaderWithExtra wav = .error .mayNotWavFormat) ∧
    (∀ h, ReadWavHeaderWithExtra wav = .ok h → h.NumChannels ≤ 200) := by
  refine ⟨?_, ?_, ?_, ?_⟩
  · intro hbe
    have ho : resolvedOrder wav = .BigEndian := by
      unfold resolvedOrder; rw [if_neg (by omega)]
    obtain ⟨h1, h2, h3⟩ := ReadWavHeaderWithExtra_of_order wav .BigEndian hlen ho hbe
    refine ⟨h1, h2, h3, ?_⟩
    intro h hok
    obtain ⟨_, _, h3, h4, _, _⟩ := ReadWavHeaderWithExtra_ok_inv wav h hok
    rw [ho] at h3 h4
    exact ⟨h3, h4⟩
  · intro hbe
    have ho : resolvedOrder wav = .LittleEndian := by
      unfold resolvedOrder; rw [if_pos hbe]
    refine ⟨?_, ?_⟩
    · intro h hok
      obtain ⟨_, _, h3, h4, _, _⟩ := ReadWavHeaderWithExtra_ok_inv wav h hok
      rw [ho] at h3 h4
      exact ⟨h3, h4⟩
    · intro hle
      exact ReadWavHeaderWithExtra_of_order wav .LittleEndian hlen ho hle
  · intro hbe hle
    have ho : resolvedOrder wav = .LittleEndian := by
      unfold resolvedOrder; rw [if_pos hbe]
    rw [ReadWavHeaderWithExtra_eq wav hlen, ho]
    exact finishHeader_implausible _ _ _ _ hle
  · intro h hok
    exact (ReadWavHeaderWithExtra_ok_inv wav h hok).2.1

/-- Witness for `C8_byte_order_resolution`: `bigEndianFixture` succeeds with its big-endian
header; the little-endian `canonicalFixture` followed by four bytes succeeds through the
little-endian decoding; the little-endian `skipWav` succeeds with the offset 72 found by the
little-endian scan; `overrunWav` returns the error of its little-endian scan; and
`implausibleWav`, whose channel count is 65535 under both orders, is rejected. -/
theorem C8_byte_order_resolution_witness :
    ReadWavHeaderWithExtra bigEndianFixture =
      .ok { ChunkID := tagRIFF, ChunkSize := 40, Format := tagWAVE, Subchunk1ID := tagFmt,
            Subchunk1Size := 16, AudioFormat := 1, NumChannels := 1, SampleRate := 16000,
            ByteRate := 32000, BlockAlign := 2, BitsPerSample := 16, Subchunk2ID := tagData,
            Subchunk2Size := 4, PcmOffset := 44, SampleNums := 2 } ∧
    ReadWavHeaderWithExtra (canonicalFixture ++ [1, 2, 3, 4]) =
      .ok { ChunkID := tagRIFF, ChunkSize := 36, Format := tagWAVE, Subchunk1ID := tagFmt,
            Subchunk1Size := 16, AudioFormat := 1, NumChannels := 1, SampleRate := 16000,
            ByteRate := 32000, BlockAlign := 2, BitsPerSample := 16, Subchunk2ID := tagData,
            Subchunk2Size := 0, PcmOffset := 44, SampleNums := 2 } ∧
    ReadWavHeaderWithExtra skipWav =
      .ok { toWavHead := decodeWavHead .LittleEndian skipWav 0, PcmOffset := 72,
            SampleNums := 2 } ∧
    ReadWavHeaderWithExtra overrunWav = .error .EOF ∧
    ReadWavHeaderWithExtra implausibleWav = .error .mayNotWavFormat :=
  ⟨(((C8_byte_order_resolution bigEndianFixture (by decide)).1 (by decide)).2.2.1
      (by decide) (by decide)).trans (by decide),
   ((((C8_byte_order_resolution (canonicalFixture ++ [1, 2, 3, 4]) (by decide)).2.1
      (by decide)).2 (by decide)).2.2 (by decide) (by decide)).trans (by decide),
   ((((C8_byte_order_resolution skipWav (by decide)).2.1 (by decide)).2 (by decide)).1 72
      (by decide) (by decide)).trans (by decide),
   (((C8_byte_order_resolution overrunWav (by decide)).2.1 (by decide)).2 (by decide)).2.1
      .EOF (by decide),
   (C8_byte_order_resolution implausibleWav (by decide)).2.2.1 (by decide) (by decide)⟩

/-- **C9.** Byte-order disambiguation: for every header value `h` (fields within the range of
their Go types) with `1 ≤ NumChannels ≤ 200`, `ReadWavHeader` decodes the 44-byte big-endian
serialization of `h` to exactly `h`, and it decodes the little-endian serialization of `h`
(the same two channel bytes in swapped order, read big-endian as a count above 200) to
exactly `h` as well, through the little-endian fallback. -/
theorem C9_byte_order_disambiguation (h : WavHead) (hr : h.InRange)
    (h1 : 1 ≤ h.NumChannels) (h2 : h.NumChannels ≤ 200) :
    (encodeWavHead .BigEndian h).length = 44 ∧
    ReadWavHeader (encodeWavHead .BigEndian h) = .ok h ∧
    (encodeWavHead .LittleEndian h).getD 22 0 = (encodeWavHead .BigEndian h).getD 23 0 ∧
    (encodeWavHead .LittleEndian h).getD 23 0 = (encodeWavHead .BigEndian h).getD 22 0 ∧
    200 < ByteOrder.BigEndian.Uint16 (encodeWavHead .LittleEndian h) 22 ∧
    ReadWavHeader (encodeWavHead .LittleEndian h) = .ok h := by
  have hbe := resolvedOrder_be_encoding h [] h2
  have hle := resolvedOrder_le_encoding h [] h1 h2
  have dbe := decode_encode .BigEndian h hr []
  have dle := decode_encode .LittleEndian h hr []
  have cle := be_channels_of_le_encoding h []
  rw [List.append_nil] at hbe hle dbe dle cle
  refine ⟨encodeWavHead_length _ h, ?_, ?_, ?_, ?_, ?_⟩
  · rw [ReadWavHeader_eq _ (by rw [encodeWavHead_length]), hbe, dbe]
  · rcases h with ⟨⟨id, cs, fm⟩, ⟨s1, s1s, af, nc, sr, br, ba, bps⟩, ⟨s2, s2s⟩⟩
    simp [encodeWavHead, Tag.bytes, ByteOrder.PutUint16, ByteOrder.PutUint32]
  · rcases h with ⟨⟨id, cs, fm⟩, ⟨s1, s1s, af, nc, sr, br, ba, bps⟩, ⟨s2, s2s⟩⟩
    simp [encodeWavHead, Tag.bytes, ByteOrder.PutUint16, ByteOrder.PutUint32]
  · rw [cle]; omega
  · rw [ReadWavHeader_eq _ (by rw [encodeWavHead_length]), hle, dle]

/-- Witness for `C9_byte_order_disambiguation`: the spec's example, a header with two
channels. -/
theorem C9_byte_order_disambiguation_witness :
    ReadWavHeader (encodeWavHead .BigEndian stereoHead) = .ok stereoHead ∧
    ReadWavHeader (encodeWavHead .LittleEndian stereoHead) = .ok stereoHead :=
  ⟨(C9_byte_order_disambiguation stereoHead (by decide) (by decide) (by decide)).2.1,
   (C9_byte_order_disambiguation stereoHead (by decide) (by decide) (by decide)).2.2.2.2.2⟩

/-- **C10.** Result shape of `WavToPcm`: whenever it succeeds, `PcmOffset` lies within the
buffer, the payload returned is the suffix of the buffer from `PcmOffset` to its end
(whatever size the data descriptor declares), and `SampleNums` is
`(len(wav) - PcmOffset) / (BitsPerSample / 8)` in Go's integer division, which here is the
division of natural numbers since neither operand is negative. -/
theorem C10_result_shape (wav p : List Byte) (h : WavHeaderWithExtra)
    (hok : WavToPcm wav = .ok (p, h)) :
    0 ≤ h.PcmOffset ∧ h.PcmOffset ≤ (wav.length : Int) ∧
    p = wav.drop h.PcmOffset.toNat ∧
    p.length = wav.length - h.PcmOffset.toNat ∧
    h.SampleNums =
      ((wav.length : Int) - h.PcmOffset).tdiv ((h.BitsPerSample : Int).tdiv 8) ∧
    h.SampleNums =
      (((wav.length - h.PcmOffset.toNat) / (h.BitsPerSample / 8) : Nat) : Int) := by
  unfold WavToPcm at hok
  cases hr : ReadWavHeaderWithExtra wav with
  | ok h' =>
    rw [hr] at hok
    simp only at hok
    have hb := ReadWavHeaderWithExtra_ok_bounds wav h' hr
    rw [if_pos ⟨by omega, hb.2⟩] at hok
    simp only [Outcome.ok.injEq, Prod.mk.injEq] at hok
    obtain ⟨rfl, rfl⟩ := hok
    obtain ⟨_, _, _, _, _, h6⟩ := ReadWavHeaderWithExtra_ok_inv wav h' hr
    refine ⟨by omega, hb.2, rfl, List.length_drop _ _, ?_, ?_⟩
    · rw [h6, tdiv_eight]
    · rw [h6]
      have : (wav.length : Int) - h'.PcmOffset = ((wav.length - h'.PcmOffset.toNat : Nat) : Int) := by
        omega
      rw [this]
      exact (Int.ofNat_tdiv _ _).symm
  | error e => rw [hr] at hok; cases hok
  | panic q => rw [hr] at hok; cases hok
  | diverge => rw [hr] at hok; cases hok

/-- Witness for `C10_result_shape`: `declared18Wav`, whose payload is its last four bytes. -/
theorem C10_result_shape_witness :
    ([1, 2, 3, 4] : List Byte) = declared18Wav.drop 44 ∧
    (2 : Int) = (((declared18Wav.length - 44) / (16 / 8) : Nat) : Int) :=
  have h := C10_result_shape declared18Wav [1, 2, 3, 4]
    { toWavHead := decodeWavHead .LittleEndian declared18Wav 0, PcmOffset := 44, SampleNums := 2 }
    (by decide)
  ⟨h.2.2.1, h.2.2.2.2.2⟩

/-- The scan gives the same result for any two amounts of fuel that exceed the number of
bytes left after the reader position. -/
theorem scanLoop_fuel_irrelevant (wav : List Byte) (o : ByteOrder) :
    ∀ (f1 f2 pos : Nat) (off : Int) (d : Data), pos ≤ wav.length →
      wav.length < pos + f1 → wav.length < pos + f2 →
      scanLoop wav o f1 pos off d = scanLoop wav o f2 pos off d := by
  intro f1
  induction f1 with
  | zero => intro f2 pos off d h1 h2 _; omega
  | succ n ih =>
    intro f2 pos off d h1 h2 h3
    cases f2 with
    | zero => omega
    | succ m =>
      by_cases hd : d.Subchunk2ID = tagData
      · rw [scanLoop_data _ _ _ _ _ _ hd, scanLoop_data _ _ _ _ _ _ hd]
      · by_cases hle : pos + d.Subchunk2Size + 8 ≤ wav.length
        · rw [scanLoop_skip _ _ _ _ _ _ hd hle, scanLoop_skip _ _ _ _ _ _ hd hle]
          exact ih m _ _ _ hle (by omega) (by omega)
        · rw [scanLoop_overrun _ _ _ _ _ _ hd (by omega),
            scanLoop_overrun _ _ _ _ _ _ hd (by omega)]

/-- Giving the loop more fuel than `len(wav)` changes nothing: the result of
`ReadWavHeaderWithExtra` is the result of the Go function. -/
theorem ReadWavHeaderWithExtraFuel_stable (fuel : Nat) (wav : List Byte)
    (hf : wav.length ≤ fuel) :
    ReadWavHeaderWithExtraFuel fuel wav = ReadWavHeaderWithExtra wav := by
  by_cases hlen : 44 ≤ wav.length
  · rw [ReadWavHeaderWithExtra_eq wav hlen, ReadWavHeaderWithExtraFuel_eq fuel wav hlen]
    unfold finishHeader
    rw [scanLoop_fuel_irrelevant wav _ fuel wav.length sizeWavHead _ _ hlen
      (by simp only [sizeWavHead]; omega) (by simp only [sizeWavHead]; omega)]
  · have hr := readFullErr_some (show wav.length < 0 + 44 by omega)
    unfold ReadWavHeaderWithExtra ReadWavHeaderWithExtraFuel
    simp only [sizeWavHead, hr]

/-- The scan of `ReadWavHeaderWithExtra` never runs out of fuel. -/
theorem ReadWavHeaderWithExtra_not_diverge (wav : List Byte) :
    ReadWavHeaderWithExtra wav ≠ .diverge := by
  by_cases hlen : 44 ≤ wav.length
  · rw [ReadWavHeaderWithExtra_eq wav hlen]
    unfold finishHeader
    split
    · simp
    · split
      · simp only
        split <;> simp
      · simp
      · simp
      · rename_i heq
        exact absurd heq (scanLoop_not_diverge wav _ _ _ _ _ hlen
          (by simp only [sizeWavHead]; omega))
  · rw [ReadWavHeaderWithExtra_short wav (by omega)]
    simp

/-- The two size fields of a little-endian header, read back from the bytes. -/
theorem le_size_fields (h : WavHead) (rest : List Byte) :
    ByteOrder.LittleEndian.Uint32 (encodeWavHead .LittleEndian h ++ rest) 4 =
      h.ChunkSize % 2 ^ 32 ∧
    ByteOrder.LittleEndian.Uint32 (encodeWavHead .LittleEndian h ++ rest) 40 =
      h.Subchunk2Size % 2 ^ 32 := by
  rcases h with ⟨⟨id, cs, fm⟩, ⟨s1, s1s, af, nc, sr, br, ba, bps⟩, ⟨s2, s2s⟩⟩
  simp [encodeWavHead, Tag.bytes, ByteOrder.Uint32, ByteOrder.PutUint16, ByteOrder.PutUint32,
    byteAt, toByte_val]
  omega

theorem PcmToWav_length (nc sr bps : Nat) (pcm : List Byte) :
    (encodeWavHead .LittleEndian (NewWavHeader nc sr bps (pcm.length % 2 ^ 32)) ++ pcm).length =
      44 + pcm.length := by
  rw [List.length_append, encodeWavHead_length]

theorem drop_header (h : WavHead) (pcm : List Byte) :
    (encodeWavHead .LittleEndian h ++ pcm).drop 44 = pcm := by
  rw [List.drop_append_of_le_length (by rw [encodeWavHead_length]),
    List.drop_of_length_le (by rw [encodeWavHead_length])]
  rfl

/-- **C11 (as amended).** Output of `PcmToWav`, for all arguments: it never returns an error,
its output has length `44 + len(pcm)` and is `Marshal(NewWavHeader(numChannels, sampleRate,
bitsPerSample, uint32(len(pcm))))` followed by `pcm` unchanged; and when
`36 + len(pcm) < 2^32` the RIFF size field (offset 4) holds `36 + len(pcm)` and the data
descriptor size field (offset 40) holds `len(pcm)`. -/
theorem C11_PcmToWav_output (nc sr bps : Nat) (pcm : List Byte) :
    ∃ out hb, PcmToWav nc sr bps pcm = .ok out ∧
      (NewWavHeader nc sr bps (pcm.length % 2 ^ 32)).Marshal = .ok hb ∧
      out = hb ++ pcm ∧ out.length = 44 + pcm.length ∧ out.drop 44 = pcm ∧
      (36 + pcm.length < 2 ^ 32 →
        pcm.length % 2 ^ 32 = pcm.length ∧
        ByteOrder.LittleEndian.Uint32 out 4 = 36 + pcm.length ∧
        ByteOrder.LittleEndian.Uint32 out 40 = pcm.length) := by
  refine ⟨_, _, PcmToWav_eq nc sr bps pcm, rfl, rfl, PcmToWav_length nc sr bps pcm,
    drop_header _ pcm, fun hlen => ?_⟩
  have hm : pcm.length % 2 ^ 32 = pcm.length := Nat.mod_eq_of_lt (by omega)
  obtain ⟨h4, h40⟩ := le_size_fields (NewWavHeader nc sr bps (pcm.length % 2 ^ 32)) pcm
  refine ⟨hm, ?_, ?_⟩
  · rw [h4]
    show (36 + pcm.length % 2 ^ 32) % 2 ^ 32 % 2 ^ 32 = 36 + pcm.length
    rw [hm, Nat.mod_mod, Nat.mod_eq_of_lt hlen]
  · rw [h40]
    show pcm.length % 2 ^ 32 % 2 ^ 32 = pcm.length
    rw [Nat.mod_mod, hm]

/-- Witness for `C11_PcmToWav_output`: two channels, 44100 Hz, 16 bits, four payload bytes. -/
theorem C11_PcmToWav_output_witness :
    ∃ out hb, PcmToWav 2 44100 16 [1, 2, 3, 4] = .ok out ∧
      (NewWavHeader 2 44100 16 (([1, 2, 3, 4] : List Byte).length % 2 ^ 32)).Marshal = .ok hb ∧
      out = hb ++ [1, 2, 3, 4] ∧ out.length = 44 + ([1, 2, 3, 4] : List Byte).length ∧
      out.drop 44 = [1, 2, 3, 4] ∧
      ByteOrder.LittleEndian.Uint32 out 4 = 36 + ([1, 2, 3, 4] : List Byte).length ∧
      ByteOrder.LittleEndian.Uint32 out 40 = ([1, 2, 3, 4] : List Byte).length :=
  match C11_PcmToWav_output 2 44100 16 [1, 2, 3, 4] with
  | ⟨out, hb, h1, h2, h3, h4, h5, h6⟩ =>
    ⟨out, hb, h1, h2, h3, h4, h5, (h6 (by decide)).2.1, (h6 (by decide)).2.2⟩

/-- The size fields `PcmToWav` writes when `len(pcm)` is `2^32`. -/
theorem PcmToWav_wrapped_fields (pcm : List Byte) (hlen : pcm.length = 2 ^ 32) :
    ∃ out, PcmToWav 1 8000 8 pcm = .ok out ∧
      ByteOrder.LittleEndian.Uint32 out 4 = 36 ∧ ByteOrder.LittleEndian.Uint32 out 40 = 0 ∧
      ByteOrder.LittleEndian.Uint32 out 4 ≠ 36 + pcm.length ∧
      ByteOrder.LittleEndian.Uint32 out 40 ≠ pcm.length := by
  have hl : pcm.length % 2 ^ 32 = 0 := by rw [hlen]; exact Nat.mod_self _
  obtain ⟨h4, h40⟩ := le_size_fields (NewWavHeader 1 8000 8 (pcm.length % 2 ^ 32)) pcm
  have e4 : ByteOrder.LittleEndian.Uint32
      (encodeWavHead .LittleEndian (NewWavHeader 1 8000 8 (pcm.length % 2 ^ 32)) ++ pcm) 4 = 36 := by
    rw [h4]
    show (36 + pcm.length % 2 ^ 32) % 2 ^ 32 % 2 ^ 32 = 36
    rw [hl]
    decide
  have e40 : ByteOrder.LittleEndian.Uint32
      (encodeWavHead .LittleEndian (NewWavHeader 1 8000 8 (pcm.length % 2 ^ 32)) ++ pcm) 40 = 0 := by
    rw [h40]
    show pcm.length % 2 ^ 32 % 2 ^ 32 = 0
    rw [hl]
    decide
  refine ⟨_, PcmToWav_eq _ _ _ _, e4, e40, ?_, ?_⟩
  · rw [e4, hlen]; decide
  · rw [e40, hlen]; decide

/-- **C11 (counterexample).** For a payload of `2^32` zero bytes `PcmToWav` succeeds, but the
RIFF size field of its output holds 36 and the data size field holds 0, not
`36 + len(pcm)` and `len(pcm)`. -/
theorem C11_counterexample :
    ∃ out, PcmToWav 1 8000 8 (List.replicate (2 ^ 32) (0 : Byte)) = .ok out ∧
      ByteOrder.LittleEndian.Uint32 out 4 = 36 ∧ ByteOrder.LittleEndian.Uint32 out 40 = 0 ∧
      ByteOrder.LittleEndian.Uint32 out 4 ≠ 36 + (List.replicate (2 ^ 32) (0 : Byte)).length ∧
      ByteOrder.LittleEndian.Uint32 out 40 ≠ (List.replicate (2 ^ 32) (0 : Byte)).length :=
  PcmToWav_wrapped_fields _ (List.length_replicate _ _)
/-- **C12.** Header wire layout: for every header `h` whose fields lie in the ranges of their
Go types, `Marshal` succeeds and returns exactly 44 bytes; each tag stands verbatim and each
numeric field stands in little-endian order at the offsets of the layout table (0, 4, 8, 12,
16, 20, 22, 24, 28, 32, 34, 36, 40), the widths 4, 4, 4, 4, 4, 2, 2, 4, 4, 2, 2, 4, 4 adding
up to 44 with no padding. For `NewWavHeader` the tags are `"RIFF"`, `"WAVE"`, `"fmt "`,
`"data"`, `Subchunk1Size` is 16 and `AudioFormat` is 1. -/
theorem C12_wire_layout (h : WavHead) (hr : h.InRange) :
    (∃ b, h.Marshal = .ok b ∧ b.length = 44 ∧
      b = h.ChunkID.bytes ++ ByteOrder.LittleEndian.PutUint32 h.ChunkSize ++ h.Format.bytes ++
        h.Subchunk1ID.bytes ++ ByteOrder.LittleEndian.PutUint32 h.Subchunk1Size ++
        ByteOrder.LittleEndian.PutUint16 h.AudioFormat ++
        ByteOrder.LittleEndian.PutUint16 h.NumChannels ++
        ByteOrder.LittleEndian.PutUint32 h.SampleRate ++
        ByteOrder.LittleEndian.PutUint32 h.ByteRate ++
        ByteOrder.LittleEndian.PutUint16 h.BlockAlign ++
        ByteOrder.LittleEndian.PutUint16 h.BitsPerSample ++
        h.Subchunk2ID.bytes ++ ByteOrder.LittleEndian.PutUint32 h.Subchunk2Size ∧
      tagAt b 0 = h.ChunkID ∧
      ByteOrder.LittleEndian.Uint32 b 4 = h.ChunkSize ∧
      tagAt b 8 = h.Format ∧
      tagAt b 12 = h.Subchunk1ID ∧
      ByteOrder.LittleEndian.Uint32 b 16 = h.Subchunk1Size ∧
      ByteOrder.LittleEndian.Uint16 b 20 = h.AudioFormat ∧
      ByteOrder.LittleEndian.Uint16 b 22 = h.NumChannels ∧
      ByteOrder.LittleEndian.Uint32 b 24 = h.SampleRate ∧
      ByteOrder.LittleEndian.Uint32 b 28 = h.ByteRate ∧
      ByteOrder.LittleEndian.Uint16 b 32 = h.BlockAlign ∧
      ByteOrder.LittleEndian.Uint16 b 34 = h.BitsPerSample ∧
      tagAt b 36 = h.Subchunk2ID ∧
      ByteOrder.LittleEndian.Uint32 b 40 = h.Subchunk2Size) ∧
    (∀ nc sr bps n : Nat,
      (NewWavHeader nc sr bps n).ChunkID = tagRIFF ∧ (NewWavHeader nc sr bps n).Format = tagWAVE ∧
      (NewWavHeader nc sr bps n).Subchunk1ID = tagFmt ∧
      (NewWavHeader nc sr bps n).Subchunk2ID = tagData ∧
      (NewWavHeader nc sr bps n).Subchunk1Size = 16 ∧
      (NewWavHeader nc sr bps n).AudioFormat = 1) := by
  refine ⟨⟨_, rfl, encodeWavHead_length _ h, rfl, ?_⟩,
    fun _ _ _ _ => ⟨rfl, rfl, rfl, rfl, rfl, rfl⟩⟩
  have hd := decode_encode .LittleEndian h hr []
  rw [List.append_nil] at hd
  have f : ∀ (g : WavHead → Tag),
      g (decodeWavHead .LittleEndian (encodeWavHead .LittleEndian h) 0) = g h :=
    fun g => by rw [hd]
  have fn : ∀ (g : WavHead → Nat),
      g (decodeWavHead .LittleEndian (encodeWavHead .LittleEndian h) 0) = g h :=
    fun g => by rw [hd]
  exact ⟨f (fun x => x.ChunkID), fn (fun x => x.ChunkSize), f (fun x => x.Format),
    f (fun x => x.Subchunk1ID), fn (fun x => x.Subchunk1Size), fn (fun x => x.AudioFormat),
    fn (fun x => x.NumChannels), fn (fun x => x.SampleRate), fn (fun x => x.ByteRate),
    fn (fun x => x.BlockAlign), fn (fun x => x.BitsPerSample), f (fun x => x.Subchunk2ID),
    fn (fun x => x.Subchunk2Size)⟩

/-- Witness for `C12_wire_layout`: the two-channel header `stereoHead` and its 44 bytes. -/
theorem C12_wire_layout_witness :
    ∃ b, stereoHead.Marshal = .ok b ∧ b.length = 44 ∧
      ByteOrder.LittleEndian.Uint16 b 22 = 2 ∧ ByteOrder.LittleEndian.Uint32 b 24 = 44100 ∧
      b = [82, 73, 70, 70, 44, 0, 0, 0, 87, 65, 86, 69, 102, 109, 116, 32, 16, 0, 0, 0, 1, 0,
        2, 0, 68, 172, 0, 0, 16, 177, 2, 0, 4, 0, 16, 0, 100, 97, 116, 97, 8, 0, 0, 0] :=
  match (C12_wire_layout stereoHead (by decide)).1 with
  | ⟨b, h1, h2, h3, _, _, _, _, _, _, h10, h11, _⟩ =>
    ⟨b, h1, h2, h10, h11, h3.trans (by decide)⟩

theorem byteAt_lt (b : List Byte) (i : Nat) : byteAt b i < 256 := (b.getD i 0).isLt

theorem resolvedOrder_of_le_channels (wav : List Byte)
    (h1 : 1 ≤ ByteOrder.LittleEndian.Uint16 wav 22)
    (h2 : ByteOrder.LittleEndian.Uint16 wav 22 ≤ 200) :
    resolvedOrder wav = .LittleEndian := by
  unfold resolvedOrder
  have a := byteAt_lt wav 22
  have b := byteAt_lt wav 23
  simp only [ByteOrder.Uint16] at h1 h2 ⊢
  rw [if_pos (by omega)]

/-- **C13.** Canonical 44-byte header. For every buffer of at least 44 bytes with the tags
`"RIFF"`, `"WAVE"`, `"fmt "`, `"data"` at offsets 0, 8, 12, 36, a little-endian channel count
between 1 and 200 and little-endian `BitsPerSample ≥ 8`, `ReadWavHeaderWithExtra` succeeds,
every header field has exactly its little-endian value at its offset, and `PcmOffset = 44`.
For the literal fixture (one channel, 16000 Hz, 16 bits, 44 bytes) the result has those
values, `PcmOffset = 44` and `SampleNums = 0`. -/
theorem C13_canonical_header :
    (∀ wav : List Byte, 44 ≤ wav.length →
      tagAt wav 0 = tagRIFF → tagAt wav 8 = tagWAVE → tagAt wav 12 = tagFmt →
      tagAt wav 36 = tagData →
      1 ≤ ByteOrder.LittleEndian.Uint16 wav 22 → ByteOrder.LittleEndian.Uint16 wav 22 ≤ 200 →
      8 ≤ ByteOrder.LittleEndian.Uint16 wav 34 →
      ∃ h, ReadWavHeaderWithExtra wav = .ok h ∧ h.PcmOffset = 44 ∧
        h.ChunkID = tagRIFF ∧ h.ChunkSize = ByteOrder.LittleEndian.Uint32 wav 4 ∧
        h.Format = tagWAVE ∧ h.Subchunk1ID = tagFmt ∧
        h.Subchunk1Size = ByteOrder.LittleEndian.Uint32 wav 16 ∧
        h.AudioFormat = ByteOrder.LittleEndian.Uint16 wav 20 ∧
        h.NumChannels = ByteOrder.LittleEndian.Uint16 wav 22 ∧
        h.SampleRate = ByteOrder.LittleEndian.Uint32 wav 24 ∧
        h.ByteRate = ByteOrder.LittleEndian.Uint32 wav 28 ∧
        h.BlockAlign = ByteOrder.LittleEndian.Uint16 wav 32 ∧
        h.BitsPerSample = ByteOrder.LittleEndian.Uint16 wav 34 ∧
        h.Subchunk2ID = tagData ∧ h.Subchunk2Size = ByteOrder.LittleEndian.Uint32 wav 40) ∧
    ReadWavHeaderWithExtra canonicalFixture =
      .ok { ChunkID := tagRIFF, ChunkSize := 36, Format := tagWAVE, Subchunk1ID := tagFmt,
            Subchunk1Size := 16, AudioFormat := 1, NumChannels := 1, SampleRate := 16000,
            ByteRate := 32000, BlockAlign := 2, BitsPerSample := 16, Subchunk2ID := tagData,
            Subchunk2Size := 0, PcmOffset := 44, SampleNums := 0 } := by
  refine ⟨?_, by decide⟩
  intro wav hlen h0 h8 h12 h36 hc1 hc2 hb
  have ho := resolvedOrder_of_le_channels wav hc1 hc2
  have hok := ReadWavHeaderWithExtra_data_at_36 wav hlen (by rw [ho]; exact hc2)
    (by rw [ho]; exact hb) h36
  rw [ho] at hok
  exact ⟨_, hok, rfl, h0, rfl, h8, h12, rfl, rfl, rfl, rfl, rfl, rfl, rfl, h36, rfl⟩

/-- Witness for `C13_canonical_header`: the fixture followed by four payload bytes. -/
theorem C13_canonical_header_witness :
    ∃ h, ReadWavHeaderWithExtra (canonicalFixture ++ [1, 2, 3, 4]) = .ok h ∧
      h.PcmOffset = 44 ∧ h.NumChannels = 1 ∧ h.SampleRate = 16000 ∧ h.BitsPerSample = 16 :=
  match C13_canonical_header.1 (canonicalFixture ++ [1, 2, 3, 4]) (by decide) (by decide)
    (by decide) (by decide) (by decide) (by decide) (by decide) (by decide) with
  | ⟨h, h1, h2, _, _, _, _, _, _, h9, h10, _, _, h13, _⟩ =>
    ⟨h, h1, h2, h9.trans (by decide), h10.trans (by decide), h13.trans (by decide)⟩

/-- **C14.** Empty payload boundary: for `numChannels` in `[1,8]`, every 32-bit `sampleRate`
and `bitsPerSample` in `{8, 16, 32}`, `PcmToWav` of the empty payload yields a 44-byte buffer
whose `Subchunk2Size` field (offset 40) is 0, and `WavToPcm` of that buffer succeeds with
`SampleNums = 0` and an empty payload. -/
theorem C14_empty_payload (nc sr bps : Nat) (hnc : 1 ≤ nc ∧ nc ≤ 8) (hsr : sr < 2 ^ 32)
    (hbps : bps = 8 ∨ bps = 16 ∨ bps = 32) :
    ∃ out h, PcmToWav nc sr bps [] = .ok out ∧ out.length = 44 ∧
      ByteOrder.LittleEndian.Uint32 out 40 = 0 ∧
      WavToPcm out = .ok ([], h) ∧ h.Subchunk2Size = 0 ∧ h.SampleNums = 0 := by
  have hw := WavToPcm_PcmToWav_eq nc sr bps [] hnc.1 (by omega) hsr (by omega) (by omega)
  refine ⟨_, _, PcmToWav_eq nc sr bps [], PcmToWav_length nc sr bps [], ?_, hw, rfl, ?_⟩
  · rw [(le_size_fields _ _).2]
    rfl
  · show (((([] : List Byte).length / (bps / 8) : Nat)) : Int) = 0
    simp

/-- Witness for `C14_empty_payload`: one channel, 16000 Hz, 16 bits. -/
theorem C14_empty_payload_witness :
    ∃ out h, PcmToWav 1 16000 16 [] = .ok out ∧ out.length = 44 ∧
      ByteOrder.LittleEndian.Uint32 out 40 = 0 ∧
      WavToPcm out = .ok ([], h) ∧ h.Subchunk2Size = 0 ∧ h.SampleNums = 0 :=
  C14_empty_payload 1 16000 16 (by decide) (by decide) (by decide)

/-- **C15 (as amended).** Format-block invariant: for all arguments with
`sampleRate × numChannels × bitsPerSample < 2^32` and `numChannels × bitsPerSample < 2^16`,
the header built by `NewWavHeader` has `ByteRate = sampleRate × numChannels × bitsPerSample / 8`
and `BlockAlign = numChannels × bitsPerSample / 8` (floor division). -/
theorem C15_format_invariant (nc sr bps n : Nat)
    (h1 : sr * nc * bps < 2 ^ 32) (h2 : nc * bps < 2 ^ 16) :
    (NewWavHeader nc sr bps n).ByteRate = sr * nc * bps / 8 ∧
    (NewWavHeader nc sr bps n).BlockAlign = nc * bps / 8 := by
  constructor
  · show sr * nc % 2 ^ 32 * bps % 2 ^ 32 / 8 = sr * nc * bps / 8
    rcases Nat.eq_zero_or_pos bps with hb | hb
    · subst hb; simp
    · have hle : sr * nc ≤ sr * nc * bps := Nat.le_mul_of_pos_right _ hb
      rw [Nat.mod_eq_of_lt (show sr * nc < 2 ^ 32 by omega), Nat.mod_eq_of_lt h1]
  · show nc * bps % 2 ^ 16 / 8 = nc * bps / 8
    rw [Nat.mod_eq_of_lt h2]

/-- Witness for `C15_format_invariant`: two channels, 44100 Hz, 16 bits. -/
theorem C15_format_invariant_witness :
    (NewWavHeader 2 44100 16 0).ByteRate = 44100 * 2 * 16 / 8 ∧
    (NewWavHeader 2 44100 16 0).BlockAlign = 2 * 16 / 8 :=
  C15_format_invariant 2 44100 16 0 (by decide) (by decide)

/-- **C15 (counterexample).** For `numChannels = 65535`, `sampleRate = 2^32 - 1` and
`bitsPerSample = 65535` the fields are `ByteRate = 16383` and `BlockAlign = 0`; the
integer values `sampleRate × numChannels × bitsPerSample / 8` and
`numChannels × bitsPerSample / 8` do not fit a 32-bit and a 16-bit field. -/
theorem C15_counterexample :
    (NewWavHeader 65535 4294967295 65535 0).ByteRate = 16383 ∧
    (NewWavHeader 65535 4294967295 65535 0).BlockAlign = 0 ∧
    (NewWavHeader 65535 4294967295 65535 0).ByteRate ≠ 4294967295 * 65535 * 65535 / 8 ∧
    (NewWavHeader 65535 4294967295 65535 0).BlockAlign ≠ 65535 * 65535 / 8 ∧
    2 ^ 32 ≤ 4294967295 * 65535 * 65535 / 8 ∧ 2 ^ 16 ≤ 65535 * 65535 / 8 := by
  decide

/-- The scan gives the same result for any two amounts of fuel of which eight times each
exceeds the number of bytes left after the reader position. -/
theorem scanLoop_fuel_irrelevant_eight (wav : List Byte) (o : ByteOrder) :
    ∀ (f1 f2 pos : Nat) (off : Int) (d : Data), pos ≤ wav.length →
      wav.length < pos + 8 * f1 → wav.length < pos + 8 * f2 →
      scanLoop wav o f1 pos off d = scanLoop wav o f2 pos off d := by
  intro f1
  induction f1 with
  | zero => intro f2 pos off d h1 h2 _; omega
  | succ n ih =>
    intro f2 pos off d h1 h2 h3
    cases f2 with
    | zero => omega
    | succ m =>
      by_cases hd : d.Subchunk2ID = tagData
      · rw [scanLoop_data _ _ _ _ _ _ hd, scanLoop_data _ _ _ _ _ _ hd]
      · by_cases hle : pos + d.Subchunk2Size + 8 ≤ wav.length
        · rw [scanLoop_skip _ _ _ _ _ _ hd hle, scanLoop_skip _ _ _ _ _ _ hd hle]
          exact ih m _ _ _ hle (by omega) (by omega)
        · rw [scanLoop_overrun _ _ _ _ _ _ hd (by omega),
            scanLoop_overrun _ _ _ _ _ _ hd (by omega)]

theorem scanLoop_ok_or_error (wav : List Byte) (o : ByteOrder) (fuel : Nat) (d : Data)
    (hlen : 44 ≤ wav.length) (hf : wav.length / 8 ≤ fuel) :
    (∃ r, scanLoop wav o fuel 44 44 d = .ok r) ∨ (∃ e, scanLoop wav o fuel 44 44 d = .error e) := by
  cases hs : scanLoop wav o fuel 44 44 d with
  | ok r => exact Or.inl ⟨r, rfl⟩
  | error e => exact Or.inr ⟨e, rfl⟩
  | panic p => exact absurd hs (scanLoop_not_panic _ _ _ _ _ _ _)
  | diverge =>
    rw [scanLoop_fuel_irrelevant_eight wav o fuel wav.length 44 44 d hlen (by omega)
      (by omega)] at hs
    exact absurd hs (scanLoop_not_diverge wav o _ _ _ _ hlen (by omega))

/-- **C16.** Scan termination, for every buffer. `ReadWavHeaderWithExtra` never runs out of
fuel, and `len(wav) / 8` iterations of the loop are always enough: with any fuel of at least
`len(wav) / 8` the result is the same. The `k`-th descriptor read by the loop, for `k ≥ 1`,
ends at a position of at least `44 + 8k` inside the buffer, so the loop reads at most
`(len(wav) - 44) / 8` descriptors, whatever the chunk sizes say. A scan either finds a
`"data"` descriptor or fails with an error, and then the function returns an error. -/
theorem C16_scan_termination (wav : List Byte) :
    ReadWavHeaderWithExtra wav ≠ .diverge ∧
    (∀ fuel, wav.length / 8 ≤ fuel →
      ReadWavHeaderWithExtraFuel fuel wav = ReadWavHeaderWithExtra wav) ∧
    (∀ o k pos d, nthChunk wav o k = some (pos, d) →
      44 + 8 * k ≤ pos ∧ (k = 0 ∨ (pos ≤ wav.length ∧ k ≤ (wav.length - 44) / 8))) ∧
    (44 ≤ wav.length →
      (∃ r, scanLoop wav (resolvedOrder wav) wav.length 44 44
          (decodeData (resolvedOrder wav) wav 36) = .ok r) ∨
      (∃ e, scanLoop wav (resolvedOrder wav) wav.length 44 44
          (decodeData (resolvedOrder wav) wav 36) = .error e ∧
        ∃ e', ReadWavHeaderWithExtra wav = .error e')) := by
  refine ⟨ReadWavHeaderWithExtra_not_diverge wav, ?_, ?_, ?_⟩
  · intro fuel hf
    by_cases hlen : 44 ≤ wav.length
    · rw [ReadWavHeaderWithExtra_eq wav hlen, ReadWavHeaderWithExtraFuel_eq fuel wav hlen]
      unfold finishHeader
      rw [scanLoop_fuel_irrelevant_eight wav _ fuel wav.length sizeWavHead _ _ hlen
        (by simp only [sizeWavHead]; omega) (by simp only [sizeWavHead]; omega)]
    · have hr := readFullErr_some (show wav.length < 0 + 44 by omega)
      unfold ReadWavHeaderWithExtra ReadWavHeaderWithExtraFuel
      simp only [sizeWavHead, hr]
  · intro o k pos d hk
    obtain ⟨h1, h2, _⟩ := nthChunk_scan wav o k pos d hk
    refine ⟨h1, ?_⟩
    rcases h2 with h2 | h2
    · exact Or.inl h2
    · exact Or.inr ⟨h2, by omega⟩
  · intro hlen
    rcases scanLoop_ok_or_error wav (resolvedOrder wav) wav.length
      (decodeData (resolvedOrder wav) wav 36) hlen (Nat.div_le_self _ _) with h | ⟨e, he⟩
    · exact Or.inl h
    · exact Or.inr ⟨e, he, ReadWavHeaderWithExtra_scan_error wav e he⟩

/-- Witness for `C16_scan_termination`: on `skipWav` (76 bytes) nine units of fuel give the
result of the function, and on `overrunWav` the scan fails and the function returns an
error. -/
theorem C16_scan_termination_witness :
    ReadWavHeaderWithExtraFuel 9 skipWav = ReadWavHeaderWithExtra skipWav ∧
    ((∃ r, scanLoop overrunWav (resolvedOrder overrunWav) overrunWav.length 44 44
          (decodeData (resolvedOrder overrunWav) overrunWav 36) = .ok r) ∨
      (∃ e, scanLoop overrunWav (resolvedOrder overrunWav) overrunWav.length 44 44
          (decodeData (resolvedOrder overrunWav) overrunWav 36) = .error e ∧
        ∃ e', ReadWavHeaderWithExtra overrunWav = .error e')) :=
  ⟨(C16_scan_termination skipWav).2.1 9 (by decide),
   (C16_scan_termination overrunWav).2.2.2 (by decide)⟩

/-- **C18.** The two decoders agree: whenever `ReadWavHeaderWithExtra` succeeds,
`ReadWavHeader` succeeds on the same buffer with the header embedded in the extended
result; the embedded `Data` descriptor is the one read at byte offset 36 in the resolved
byte order, untouched by the scan, so its tag is the four bytes at offset 36 even when they
are not `"data"` and chunks were skipped. -/
theorem C18_decoders_agree (wav : List Byte) (h : WavHeaderWithExtra)
    (hok : ReadWavHeaderWithExtra wav = .ok h) :
    ReadWavHeader wav = .ok h.toWavHead ∧
    h.toData = decodeData (resolvedOrder wav) wav 36 ∧
    h.Subchunk2ID = tagAt wav 36 ∧
    h.Subchunk2Size = (resolvedOrder wav).Uint32 wav 40 := by
  obtain ⟨hlen, _, h3, _, _, _⟩ := ReadWavHeaderWithExtra_ok_inv wav h hok
  rw [ReadWavHeader_eq wav hlen, h3]
  exact ⟨rfl, rfl, rfl, rfl⟩

/-- Witness for `C18_decoders_agree`: on `skipWav` one chunk is skipped (`PcmOffset = 72`) and
the embedded descriptor is still the `"LIST"` descriptor of offset 36. -/
theorem C18_decoders_agree_witness :
    ReadWavHeader skipWav = .ok (decodeWavHead .LittleEndian skipWav 0) ∧
    (decodeWavHead .LittleEndian skipWav 0).Subchunk2ID = tagLIST ∧
    (decodeWavHead .LittleEndian skipWav 0).Subchunk2Size = 20 :=
  have h := C18_decoders_agree skipWav
    { toWavHead := decodeWavHead .LittleEndian skipWav 0, PcmOffset := 72, SampleNums := 2 }
    (by decide)
  ⟨h.1, h.2.2.1.trans (by decide), h.2.2.2.trans (by decide)⟩

/-- A successful `WavToPcm` never reports more than 200 channels. -/
theorem WavToPcm_channels_le (wav p : List Byte) (h : WavHeaderWithExtra)
    (hok : WavToPcm wav = .ok (p, h)) : h.NumChannels ≤ 200 := by
  unfold WavToPcm at hok
  cases hr : ReadWavHeaderWithExtra wav with
  | ok h' =>
    rw [hr] at hok
    simp only at hok
    split at hok
    · simp only [Outcome.ok.injEq, Prod.mk.injEq] at hok
      obtain ⟨_, rfl⟩ := hok
      exact (ReadWavHeaderWithExtra_ok_inv wav h' hr).2.1
    · cases hok
  | error e => rw [hr] at hok; cases hok
  | panic q => rw [hr] at hok; cases hok
  | diverge => rw [hr] at hok; cases hok

/-- **C17 (the code at the failing input).** `PcmToWav(256, 8000, 256, nil)` returns
`misreadWav`; its channel bytes `0, 1` read big-endian give 1, so the big-endian decoding is
kept, `BitsPerSample` is read as 1, and `WavToPcm` neither returns an error nor a header: it
panics in the division by `BitsPerSample / 8 = 0`. -/
theorem C17_misclassified_panics :
    PcmToWav 256 8000 256 [] = .ok misreadWav ∧
    resolvedOrder misreadWav = .BigEndian ∧
    (decodeWavHead .BigEndian misreadWav 0).NumChannels = 1 ∧
    (decodeWavHead .BigEndian misreadWav 0).BitsPerSample = 1 ∧
    ReadWavHeaderWithExtra misreadWav = .panic .integerDivideByZero ∧
    WavToPcm misreadWav = .panic .integerDivideByZero := by
  decide

/-- Every little-endian header read big-endian is the byte-reversed header. -/
theorem decode_be_of_le (h : WavHead) (rest : List Byte) :
    decodeWavHead .BigEndian (encodeWavHead .LittleEndian h ++ rest) 0 = reverseHead h := by
  rcases h with ⟨⟨id, cs, fm⟩, ⟨s1, s1s, af, nc, sr, br, ba, bps⟩, ⟨s2, s2s⟩⟩
  simp [decodeWavHead, decodeHead, decodeFmt, decodeData, encodeWavHead, Tag.bytes, tagAt,
    ByteOrder.Uint16, ByteOrder.Uint32, ByteOrder.PutUint16, ByteOrder.PutUint32, byteAt,
    toByte_val, reverseHead, reverse16, reverse32]

theorem resolvedOrder_zero_channels (h : WavHead) (rest : List Byte) (h0 : h.NumChannels = 0) :
    resolvedOrder (encodeWavHead .LittleEndian h ++ rest) = .BigEndian := by
  unfold resolvedOrder
  rw [be_channels_of_le_encoding, h0, if_neg (by decide)]

/-- Both decoders on a little-endian header with zero channels and a `"data"` descriptor. -/
theorem zero_channels_decode (h : WavHead) (rest : List Byte) (h0 : h.NumChannels = 0)
    (ht : h.Subchunk2ID = tagData) :
    resolvedOrder (encodeWavHead .LittleEndian h ++ rest) = .BigEndian ∧
    ReadWavHeader (encodeWavHead .LittleEndian h ++ rest) = .ok (reverseHead h) ∧
    ReadWavHeaderWithExtra (encodeWavHead .LittleEndian h ++ rest) ≠ .error .mayNotWavFormat ∧
    (∀ x, ReadWavHeaderWithExtra (encodeWavHead .LittleEndian h ++ rest) = .ok x →
      x.toWavHead = reverseHead h) ∧
    (8 ≤ reverse16 h.BitsPerSample →
      ∃ x, ReadWavHeaderWithExtra (encodeWavHead .LittleEndian h ++ rest) = .ok x ∧
        x.toWavHead = reverseHead h ∧ x.PcmOffset = 44) := by
  have hlen : (encodeWavHead .LittleEndian h ++ rest).length = 43 + rest.length + 1 := by
    rw [List.length_append, encodeWavHead_length]; omega
  have ho := resolvedOrder_zero_channels h rest h0
  have hd := decode_be_of_le h rest
  have hrd : ReadWavHeader (encodeWavHead .LittleEndian h ++ rest) = .ok (reverseHead h) := by
    rw [ReadWavHeader_eq _ (by omega), ho, hd]
  have hfin := ReadWavHeaderWithExtra_eq (encodeWavHead .LittleEndian h ++ rest) (by omega)
  rw [ho, hd] at hfin
  generalize encodeWavHead .LittleEndian h ++ rest = out at *
  have hnc : (reverseHead h).NumChannels ≤ 200 := by
    show reverse16 h.NumChannels ≤ 200
    rw [h0]; decide
  have hscan : scanLoop out .BigEndian out.length 44 44 (reverseHead h).toData = .ok 44 := by
    rw [hlen]
    exact scanLoop_data _ _ _ _ _ _ ht
  refine ⟨ho, hrd, ?_, ?_, ?_⟩
  · rw [hfin]
    by_cases hb : 8 ≤ reverse16 h.BitsPerSample
    · rw [finishHeader_ok _ _ _ _ 44 hnc hb hscan]
      simp
    · rw [finishHeader_zero_width _ _ _ _ 44 hnc (Nat.lt_of_not_le hb) hscan]
      simp
  · intro x hok
    rw [hfin] at hok
    exact (finishHeader_inv _ _ _ _ _ hok).2.1
  · intro hb
    rw [hfin, finishHeader_ok _ _ _ _ 44 hnc hb hscan]
    exact ⟨_, rfl, rfl, rfl⟩

/-- What the decoders return on the output of `PcmToWav` for zero channels: the big-endian
decoding is kept, `ReadWavHeader` returns the header with every numeric field byte-reversed,
every header `ReadWavHeaderWithExtra` returns is that header, and it returns one when the
reversed `BitsPerSample` is at least 8. -/
theorem PcmToWav_zero_channels_reversed (sr bps : Nat) (pcm : List Byte) :
    ∃ out, PcmToWav 0 sr bps pcm = .ok out ∧
      resolvedOrder out = .BigEndian ∧
      ReadWavHeader out = .ok (reverseHead (NewWavHeader 0 sr bps (pcm.length % 2 ^ 32))) ∧
      ReadWavHeader out ≠ .ok (NewWavHeader 0 sr bps (pcm.length % 2 ^ 32)) ∧
      (reverseHead (NewWavHeader 0 sr bps (pcm.length % 2 ^ 32))).NumChannels = 0 ∧
      (reverseHead (NewWavHeader 0 sr bps (pcm.length % 2 ^ 32))).SampleRate = reverse32 sr ∧
      (reverseHead (NewWavHeader 0 sr bps (pcm.length % 2 ^ 32))).BitsPerSample =
        reverse16 bps ∧
      (reverseHead (NewWavHeader 0 sr bps (pcm.length % 2 ^ 32))).Subchunk1Size = 268435456 ∧
      (reverseHead (NewWavHeader 0 sr bps (pcm.length % 2 ^ 32))).AudioFormat = 256 ∧
      ReadWavHeaderWithExtra out ≠ .error .mayNotWavFormat ∧
      (∀ h, ReadWavHeaderWithExtra out = .ok h →
        h.toWavHead = reverseHead (NewWavHeader 0 sr bps (pcm.length % 2 ^ 32))) ∧
      (8 ≤ reverse16 bps →
        ∃ h, ReadWavHeaderWithExtra out = .ok h ∧
          h.toWavHead = reverseHead (NewWavHeader 0 sr bps (pcm.length % 2 ^ 32)) ∧
          h.PcmOffset = 44) := by
  obtain ⟨ho, hrd, hne', hall, hex⟩ :=
    zero_channels_decode (NewWavHeader 0 sr bps (pcm.length % 2 ^ 32)) pcm rfl rfl
  have hne : reverseHead (NewWavHeader 0 sr bps (pcm.length % 2 ^ 32)) ≠
      NewWavHeader 0 sr bps (pcm.length % 2 ^ 32) := by
    intro heq
    have h16 : reverse32 16 = 16 := congrArg (fun x : WavHead => x.Subchunk1Size) heq
    exact absurd h16 (by decide)
  have e16 : reverse32 16 = 268435456 := by decide
  have e1 : reverse16 1 = 256 := by decide
  have e0 : reverse16 0 = 0 := by decide
  refine ⟨_, PcmToWav_eq 0 sr bps pcm, ho, hrd, ?_, e0, rfl, rfl, e16, e1, hne', hall, hex⟩
  rw [hrd]
  intro h
  exact hne (Outcome.ok.inj h)

/-- **C19 (the code at the failing input).** `PcmToWav(0, 8000, 0, nil)` returns
`zeroChannelWav`. The big-endian attempt is kept by both decoders (channel count 0) and
`ReadWavHeader` returns the byte-reversed header, but `ReadWavHeaderWithExtra` returns no
header at all: `BitsPerSample` is 0 and the division by `BitsPerSample / 8` panics, as does
`WavToPcm`. -/
theorem C19_zero_channels_zero_width_panics :
    PcmToWav 0 8000 0 [] = .ok zeroChannelWav ∧
    resolvedOrder zeroChannelWav = .BigEndian ∧
    ReadWavHeader zeroChannelWav = .ok (reverseHead (NewWavHeader 0 8000 0 0)) ∧
    (reverseHead (NewWavHeader 0 8000 0 0)).SampleRate = reverse32 8000 ∧
    (reverseHead (NewWavHeader 0 8000 0 0)).BitsPerSample = 0 ∧
    ReadWavHeaderWithExtra zeroChannelWav = .panic .integerDivideByZero ∧
    WavToPcm zeroChannelWav = .panic .integerDivideByZero ∧
    ¬ ∃ h, ReadWavHeaderWithExtra zeroChannelWav = .ok h := by
  refine ⟨by decide, by decide, by decide, by decide, by decide, by decide, by decide, ?_⟩
  rintro ⟨h, hok⟩
  have : ReadWavHeaderWithExtra zeroChannelWav = .panic .integerDivideByZero := by decide
  rw [this] at hok
  cases hok

theorem Csv.parseLoop_length (ops : Csv.StringOps) (split : String) :
    ∀ (lines : List String) (ln : Nat) (heads : List String) (acc : List Csv.Row), 0 < ln →
      (Csv.parseLoop ops split lines ln heads acc).length =
        acc.length + (lines.filter (fun l => ops.TrimSpace l ≠ "")).length := by
  intro lines
  induction lines with
  | nil => intro ln heads acc _; simp [Csv.parseLoop]
  | cons line rest ih =>
    intro ln heads acc hln
    by_cases he : ops.TrimSpace line = ""
    · simp only [Csv.parseLoop, he, if_true]
      rw [ih (ln + 1) heads acc (by omega)]
      simp [List.filter_cons, he]
    · simp only [Csv.parseLoop, he, if_false]
      rw [if_neg (by omega), ih (ln + 1) heads _ (by omega)]
      simp [List.filter_cons, he]
      omega

/-- For a non-empty list of lines `ParseRawsToMapSlice` returns one row for each line of
index at least 1 that is non-empty after trimming. -/
theorem Csv.ParseRawsToMapSlice_nonempty (ops : Csv.StringOps) (first : String)
    (rest : List String) (split : String) :
    ∃ rows, Csv.ParseRawsToMapSlice ops (first :: rest) split = .ok rows ∧
      rows.length = (rest.filter (fun l => ops.TrimSpace l ≠ "")).length := by
  refine ⟨Csv.parseLoop ops split (first :: rest) 0 ["INDEX"] [], ?_, ?_⟩
  · unfold Csv.ParseRawsToMapSlice
    rw [if_neg (by simp only [List.length_cons]; push_cast; omega)]
  · by_cases he : ops.TrimSpace first = ""
    · simp only [Csv.parseLoop, he, if_true]
      rw [Csv.parseLoop_length ops split rest 1 _ _ (by decide)]
      simp
    · simp only [Csv.parseLoop, he, if_false, if_true]
      rw [Csv.parseLoop_length ops split rest 1 _ _ (by decide)]
      simp

/-- **C20 (the code at the failing input).** On the empty list of lines, whatever the string
functions and the separator, `ParseRawsToMapSlice` does not return a slice: the capacity
`len(raws)-1 = -1` makes `make` panic. -/
theorem C20_empty_input_panics (ops : Csv.StringOps) (split : String) :
    Csv.ParseRawsToMapSlice ops [] split = .panic .makesliceCapOutOfRange := by
  unfold Csv.ParseRawsToMapSlice
  rw [if_pos (by decide)]

end Wav
